/-
  Verification of the k8s-athenz-syncer reconciliation core.

  Shallow embedding of the Go sources in `pkg/util/util.go`, `pkg/cr/cr.go`,
  `pkg/ratelimiter/ratelimiter.go`, `pkg/cron/cron.go` and
  `pkg/controller/controller.go`.  Go strings are modelled as `List Char`,
  Go `time.Time`/`time.Duration` as `Int` (a point on / length of an integer
  time axis), maps as association lists, and the informer stores as lists of
  the stored resources keyed by their name field.
-/
import Mathlib

set_option linter.unusedVariables false

/-! ## Go string primitives used by pkg/util/util.go -/

/-- Models Go `strings.HasPrefix(s, pre)` on character lists. -/
def goStartsWith : List Char → List Char → Bool
  | _, [] => true
  | [], _ :: _ => false
  | c :: s, d :: p => c == d && goStartsWith s p

/-- Models Go `strings.TrimPrefix(s, pre)` on character lists. -/
def goTrimStart (s pre : List Char) : List Char :=
  if goStartsWith s pre then s.drop pre.length else s

/-- Models Go `strings.Replace(s, pat, rep, -1)` (replace all, non-overlapping,
left to right) on character lists.  Every call site in this repository uses a
non-empty pattern, so the empty-pattern case (where Go would insert between
characters) is mapped to the identity and is never exercised. -/
def goReplace : List Char → List Char → List Char → List Char
  | [], _, _ => []
  | c :: rest, pat, rep =>
    if h : pat ≠ [] ∧ goStartsWith (c :: rest) pat then
      rep ++ goReplace ((c :: rest).drop pat.length) pat rep
    else
      c :: goReplace rest pat rep
termination_by s _ _ => s.length
decreasing_by
  · simp only [List.length_drop, List.length_cons]
    have hlen : 0 < pat.length := List.length_pos.mpr h.1
    omega
  · simp only [List.length_cons]
    omega

/-! ## NameMapper: pkg/util/util.go -/

/-- `Util` — struct with 2 fields adminDomain and list of system namespaces. -/
structure Util where
  adminDomain : List Char
  systemNamespaces : List (List Char)

/-- `isSystemNamespace` — check if the current namespace is a system namespace
(linear scan with string equality). -/
def Util.isSystemNamespace (u : Util) (ns : List Char) : Bool :=
  u.systemNamespaces.any (fun v => ns == v)

/-- `NamespaceToDomain` — convert a kubernetes namespace to an athenz domain.
A system namespace maps to `<adminDomain>.<ns>`; otherwise dashes are
converted to dots and double dashes to single dashes. -/
def Util.NamespaceToDomain (u : Util) (ns : List Char) : List Char :=
  if u.isSystemNamespace ns then u.adminDomain ++ '.' :: ns
  else goReplace (goReplace ns ['-'] ['.']) ['.', '.'] ['-']

/-- `DomainToNamespace` — convert an athenz domain to a kubernetes namespace.
If the admin domain is non-empty and a prefix of the domain the admin prefix
(plus a dot) is stripped; otherwise dashes become double dashes and dots
become dashes. -/
def Util.DomainToNamespace (u : Util) (domain : List Char) : List Char :=
  if u.adminDomain ≠ [] ∧ goStartsWith domain u.adminDomain then
    goTrimStart domain (u.adminDomain ++ ['.'])
  else
    goReplace (goReplace domain ['-'] ['-', '-']) ['.'] ['-']

/-- `IsSystemDomain` — check if the current domain is a system domain, by
comparing it with the mapped domain of every configured system namespace. -/
def Util.IsSystemDomain (u : Util) (domain : List Char) : Bool :=
  u.systemNamespaces.any (fun ns => domain == u.NamespaceToDomain ns)

/-- `IsAdminDomain` — check if domain is the admin domain. -/
def Util.IsAdminDomain (u : Util) (domain : List Char) : Bool :=
  domain == u.adminDomain

/-! ### Unfolding lemmas for the four substitution passes -/

theorem goReplace_nil (pat rep : List Char) : goReplace [] pat rep = [] := by
  simp [goReplace]

theorem s1_other (c : Char) (t : List Char) (hc : c ≠ '-') :
    goReplace (c :: t) ['-'] ['.'] = c :: goReplace t ['-'] ['.'] := by
  simp [goReplace, goStartsWith, hc]

theorem s1_dash (t : List Char) :
    goReplace ('-' :: t) ['-'] ['.'] = '.' :: goReplace t ['-'] ['.'] := by
  simp [goReplace, goStartsWith]

theorem s2_other (c : Char) (t : List Char) (hc : c ≠ '.') :
    goReplace (c :: t) ['.', '.'] ['-'] = c :: goReplace t ['.', '.'] ['-'] := by
  simp [goReplace, goStartsWith, hc]

theorem s2_dot_other (c : Char) (t : List Char) (hc : c ≠ '.') :
    goReplace ('.' :: c :: t) ['.', '.'] ['-']
      = '.' :: goReplace (c :: t) ['.', '.'] ['-'] := by
  simp [goReplace, goStartsWith, hc]

theorem s2_dot_nil :
    goReplace ['.'] ['.', '.'] ['-'] = ['.'] := by
  simp [goReplace, goStartsWith]

theorem s2_dotdot (t : List Char) :
    goReplace ('.' :: '.' :: t) ['.', '.'] ['-']
      = '-' :: goReplace t ['.', '.'] ['-'] := by
  simp [goReplace, goStartsWith]

theorem t1_other (c : Char) (t : List Char) (hc : c ≠ '-') :
    goReplace (c :: t) ['-'] ['-', '-'] = c :: goReplace t ['-'] ['-', '-'] := by
  simp [goReplace, goStartsWith, hc]

theorem t1_dash (t : List Char) :
    goReplace ('-' :: t) ['-'] ['-', '-']
      = '-' :: '-' :: goReplace t ['-'] ['-', '-'] := by
  simp [goReplace, goStartsWith]

theorem t2_other (c : Char) (t : List Char) (hc : c ≠ '.') :
    goReplace (c :: t) ['.'] ['-'] = c :: goReplace t ['.'] ['-'] := by
  simp [goReplace, goStartsWith, hc]

theorem t2_dot (t : List Char) :
    goReplace ('.' :: t) ['.'] ['-'] = '-' :: goReplace t ['.'] ['-'] := by
  simp [goReplace, goStartsWith]

/-! ### The namespace character class of the round-trip claim -/

/-- Lowercase letter or digit: the non-dash characters allowed in a
namespace by the round-trip claim. -/
def nsBaseChar (c : Char) : Bool := c.isLower || c.isDigit

/-- No three consecutive dashes (the claim allows single and double dashes
only). -/
def noTripleDash : List Char → Bool
  | [] => true
  | [_] => true
  | [_, _] => true
  | a :: b :: c :: rest =>
    !(a == '-' && b == '-' && c == '-') && noTripleDash (b :: c :: rest)

/-- A namespace string composed only of lowercase letters, digits, single
dashes, and double dashes (no dots). -/
def goodNs (s : List Char) : Bool :=
  s.all (fun c => nsBaseChar c || c == '-') && noTripleDash s

theorem nsBaseChar_ne {c : Char} (h : nsBaseChar c = true) : c ≠ '-' ∧ c ≠ '.' := by
  constructor <;> rintro rfl <;> exact absurd h (by decide)

theorem noTripleDash_tail {c : Char} {t : List Char}
    (h : noTripleDash (c :: t) = true) : noTripleDash t = true := by
  match t with
  | [] => rfl
  | [_] => rfl
  | a :: b :: r =>
    simp only [noTripleDash, Bool.and_eq_true] at h
    exact h.2

theorem goodNs_cons {c : Char} {t : List Char} (h : goodNs (c :: t) = true) :
    (nsBaseChar c || c == '-') = true ∧ goodNs t = true := by
  unfold goodNs at h ⊢
  rw [Bool.and_eq_true] at h
  obtain ⟨hall, htr⟩ := h
  rw [List.all_cons, Bool.and_eq_true] at hall
  exact ⟨hall.1, by rw [Bool.and_eq_true]; exact ⟨hall.2, noTripleDash_tail htr⟩⟩

theorem goodNs_dd {c : Char} {t : List Char}
    (h : goodNs ('-' :: '-' :: c :: t) = true) : c ≠ '-' := by
  unfold goodNs at h
  rw [Bool.and_eq_true] at h
  have := h.2
  simp only [noTripleDash, Bool.and_eq_true, Bool.not_eq_true'] at this
  intro hc
  subst hc
  simp at this

/-- The head of a class character is preserved by the dash-to-dot pass. -/
theorem class_head_ne {c : Char} (hcl : (nsBaseChar c || c == '-') = true)
    (hd : c ≠ '-') : c ≠ '-' ∧ c ≠ '.' := by
  rcases Bool.or_eq_true _ _ |>.mp hcl with hb | he
  · exact nsBaseChar_ne hb
  · exact absurd (by simpa using he) hd

/-! ### The core round-trip induction -/

/-- Applying the namespace-to-domain escaping (dash to dot, then double dot
to dash) and then the domain-to-namespace escaping (dash to double dash,
then dot to dash) is the identity on the claim's namespace character
class. -/
theorem ns_roundtrip_core (n : Nat) :
    ∀ ns : List Char, ns.length ≤ n → goodNs ns = true →
      goReplace (goReplace (goReplace (goReplace ns ['-'] ['.']) ['.', '.'] ['-'])
        ['-'] ['-', '-']) ['.'] ['-'] = ns := by
  induction n with
  | zero =>
    intro ns hlen hgood
    have hnil : ns = [] := List.eq_nil_of_length_eq_zero (Nat.le_zero.mp hlen)
    subst hnil
    simp [goReplace]
  | succ n ih =>
    intro ns hlen hgood
    rcases ns with _ | ⟨c, t⟩
    · simp [goReplace]
    · by_cases hc : c = '-'
      · subst hc
        rcases t with _ | ⟨c2, t2⟩
        · simp [goReplace, goStartsWith]
        · by_cases hc2 : c2 = '-'
          · subst hc2
            rcases t2 with _ | ⟨c3, t3⟩
            · simp [goReplace, goStartsWith]
            · have hc3 : c3 ≠ '-' := goodNs_dd hgood
              have hg1 := (goodNs_cons hgood).2
              have hg2 := (goodNs_cons hg1).2
              have hcl3 := (goodNs_cons hg2).1
              have hne3 := class_head_ne hcl3 hc3
              have hrec := ih (c3 :: t3)
                (by simp only [List.length_cons] at hlen ⊢; omega) hg2
              rw [s1_dash, s1_dash, s1_other c3 t3 hne3.1]
              rw [s2_dotdot]
              rw [← s1_other c3 t3 hne3.1]
              rw [t1_dash]
              rw [t2_other '-' _ (by decide), t2_other '-' _ (by decide)]
              rw [hrec]
          · -- single dash followed by a class character
            have hg1 := (goodNs_cons hgood).2
            have hcl2 := (goodNs_cons hg1).1
            have hne2 := class_head_ne hcl2 hc2
            have hrec := ih (c2 :: t2)
              (by simp only [List.length_cons] at hlen ⊢; omega) hg1
            rw [s1_dash, s1_other c2 t2 hne2.1]
            rw [s2_dot_other c2 _ hne2.2]
            rw [← s1_other c2 t2 hne2.1]
            rw [t1_other '.' _ (by decide)]
            rw [t2_dot]
            rw [hrec]
      · have hcl := (goodNs_cons hgood).1
        have hne := class_head_ne hcl hc
        have hg1 := (goodNs_cons hgood).2
        have hrec := ih t (by simp only [List.length_cons] at hlen; omega) hg1
        rw [s1_other c t hne.1]
        rw [s2_other c _ hne.2]
        rw [t1_other c _ hne.1]
        rw [t2_other c _ hne.2]
        rw [hrec]

/-! ### Prefix helper lemmas -/

theorem goStartsWith_append_both (p q x : List Char) :
    goStartsWith (p ++ x) (p ++ q) = goStartsWith x q := by
  induction p with
  | nil => rfl
  | cons c p ihp => simp [goStartsWith, ihp]

theorem goStartsWith_append_self (p x : List Char) :
    goStartsWith (p ++ x) p = true := by
  have := goStartsWith_append_both p [] x
  rw [List.append_nil] at this
  rw [this]
  cases x <;> rfl

theorem goReplace_cons_pos (c : Char) (rest pat rep : List Char)
    (h : pat ≠ [] ∧ goStartsWith (c :: rest) pat = true) :
    goReplace (c :: rest) pat rep
      = rep ++ goReplace ((c :: rest).drop pat.length) pat rep := by
  rw [goReplace, dif_pos h]

theorem goReplace_cons_neg (c : Char) (rest pat rep : List Char)
    (h : ¬(pat ≠ [] ∧ goStartsWith (c :: rest) pat = true)) :
    goReplace (c :: rest) pat rep = c :: goReplace rest pat rep := by
  rw [goReplace, dif_neg h]

theorem goStartsWith_length_le :
    ∀ {p s : List Char}, goStartsWith s p = true → p.length ≤ s.length := by
  intro p
  induction p with
  | nil => intro s _; simp
  | cons d p ihp =>
    intro s h
    rcases s with _ | ⟨c, s⟩
    · exact absurd h (by simp [goStartsWith])
    · simp only [goStartsWith, Bool.and_eq_true] at h
      simpa using ihp h.2

theorem goReplace_length_le (n : Nat) :
    ∀ s pat rep : List Char, s.length ≤ n → rep.length ≤ pat.length →
      (goReplace s pat rep).length ≤ s.length := by
  induction n with
  | zero =>
    intro s pat rep hlen _
    have hnil : s = [] := List.eq_nil_of_length_eq_zero (Nat.le_zero.mp hlen)
    subst hnil
    simp [goReplace_nil]
  | succ n ih =>
    intro s pat rep hlen hrep
    rcases s with _ | ⟨c, rest⟩
    · simp [goReplace_nil]
    · by_cases hm : pat ≠ [] ∧ goStartsWith (c :: rest) pat = true
      · rw [goReplace_cons_pos c rest pat rep hm]
        have hp : 0 < pat.length := List.length_pos.mpr hm.1
        have hps : pat.length ≤ (c :: rest).length := goStartsWith_length_le hm.2
        have hrec := ih ((c :: rest).drop pat.length) pat rep
          (by simp only [List.length_drop, List.length_cons] at *; omega) hrep
        simp only [List.length_append, List.length_drop, List.length_cons] at *
        omega
      · rw [goReplace_cons_neg c rest pat rep hm]
        have hrec := ih rest pat rep
          (by simp only [List.length_cons] at hlen; omega) hrep
        simp only [List.length_cons]
        omega

/-! ## Claim C1: mapping round-trip -/

/-- C1 (counterexample): the round-trip claim fails as stated.  With admin
domain `admin` and configured system list `[kube-system]`, the namespace
`admin-foo` is composed only of lowercase letters and single dashes, yet
`DomainToNamespace (NamespaceToDomain "admin-foo")` returns `foo`: the mapped
domain `admin.foo` happens to carry the admin domain as a prefix, so the
reverse path strips it instead of unescaping. -/
theorem c1_counterexample :
    goodNs "admin-foo".toList = true ∧
    (Util.mk "admin".toList ["kube-system".toList]).DomainToNamespace
        ((Util.mk "admin".toList ["kube-system".toList]).NamespaceToDomain
          "admin-foo".toList) = "foo".toList ∧
    "foo".toList ≠ "admin-foo".toList := by
  refine ⟨by decide, ?_, by decide⟩
  simp [Util.NamespaceToDomain, Util.DomainToNamespace, Util.isSystemNamespace,
    goReplace, goStartsWith, goTrimStart]

/-- C1 (amended): for every namespace composed only of lowercase letters,
digits, single dashes, and double dashes (no dots): a namespace in the
configured system list, with a non-empty admin domain, maps to
`<adminDomain>.<ns>` and back to `<ns>` exactly; a namespace not in the
system list round-trips through `NamespaceToDomain` then `DomainToNamespace`
to the original string provided its mapped domain does not carry a non-empty
admin domain as a prefix (the case excluded by the counterexample). -/
theorem c1_mapping_roundtrip (u : Util) (ns : List Char)
    (hgood : goodNs ns = true) :
    (u.isSystemNamespace ns = true → u.adminDomain ≠ [] →
      u.NamespaceToDomain ns = u.adminDomain ++ '.' :: ns ∧
      u.DomainToNamespace (u.NamespaceToDomain ns) = ns) ∧
    (u.isSystemNamespace ns = false →
      ¬(u.adminDomain ≠ [] ∧
        goStartsWith (u.NamespaceToDomain ns) u.adminDomain = true) →
      u.DomainToNamespace (u.NamespaceToDomain ns) = ns) := by
  constructor
  · intro hsys hadm
    have h1 : u.NamespaceToDomain ns = u.adminDomain ++ '.' :: ns := by
      unfold Util.NamespaceToDomain
      rw [hsys]
      simp
    refine ⟨h1, ?_⟩
    rw [h1]
    have hassoc : u.adminDomain ++ '.' :: ns = (u.adminDomain ++ ['.']) ++ ns := by
      simp
    have hpre : goStartsWith (u.adminDomain ++ '.' :: ns) u.adminDomain = true := by
      rw [show u.adminDomain ++ '.' :: ns = u.adminDomain ++ ('.' :: ns) from rfl]
      exact goStartsWith_append_self _ _
    unfold Util.DomainToNamespace
    rw [if_pos ⟨hadm, hpre⟩]
    unfold goTrimStart
    rw [hassoc, goStartsWith_append_self, if_pos rfl, List.drop_left]
  · intro hsys hnpre
    have h1 : u.NamespaceToDomain ns
        = goReplace (goReplace ns ['-'] ['.']) ['.', '.'] ['-'] := by
      unfold Util.NamespaceToDomain
      rw [hsys]
      simp
    rw [h1] at hnpre ⊢
    unfold Util.DomainToNamespace
    rw [if_neg hnpre]
    exact ns_roundtrip_core ns.length ns le_rfl hgood

/-- C1 (witness): the amended round trip at the configuration of the
repository's own tests: admin domain `admin.domain`, system namespace
`kube-system`. -/
theorem c1_witness :
    goodNs "kube-system".toList = true ∧
    (((Util.mk "admin.domain".toList ["kube-system".toList]).isSystemNamespace
          "kube-system".toList = true →
        "admin.domain".toList ≠ [] →
        (Util.mk "admin.domain".toList ["kube-system".toList]).NamespaceToDomain
            "kube-system".toList
          = "admin.domain".toList ++ '.' :: "kube-system".toList ∧
        (Util.mk "admin.domain".toList ["kube-system".toList]).DomainToNamespace
            ((Util.mk "admin.domain".toList ["kube-system".toList]).NamespaceToDomain
              "kube-system".toList) = "kube-system".toList) ∧
      ((Util.mk "admin.domain".toList ["kube-system".toList]).isSystemNamespace
          "kube-system".toList = false →
        ¬("admin.domain".toList ≠ [] ∧
          goStartsWith
            ((Util.mk "admin.domain".toList ["kube-system".toList]).NamespaceToDomain
              "kube-system".toList) "admin.domain".toList = true) →
        (Util.mk "admin.domain".toList ["kube-system".toList]).DomainToNamespace
            ((Util.mk "admin.domain".toList ["kube-system".toList]).NamespaceToDomain
              "kube-system".toList) = "kube-system".toList)) :=
  ⟨by decide,
    c1_mapping_roundtrip (Util.mk "admin.domain".toList ["kube-system".toList])
      "kube-system".toList (by decide)⟩

/-! ## Claim C2: system-namespace recognition -/

/-- C2: on the forward path a namespace maps to `<adminDomain>.<ns>` exactly
when it is a member of the configured system-namespace list (for a
non-member the escaping output is always strictly shorter than
`<adminDomain>.<ns>`); on the reverse path `IsSystemDomain` recognizes a
domain exactly by membership: it holds iff the domain equals the mapped
domain of some configured system namespace.  The final conjunct pins that
the recognition is not by admin-prefix pattern: `admin.foo` carries the
admin domain `admin` as a prefix yet is not recognized as a system domain
when the configured list is `[kube-system]`. -/
theorem c2_system_recognition (u : Util) :
    (∀ ns : List Char,
      u.NamespaceToDomain ns = u.adminDomain ++ '.' :: ns ↔
        u.isSystemNamespace ns = true) ∧
    (∀ domain : List Char,
      u.IsSystemDomain domain = true ↔
        ∃ ns ∈ u.systemNamespaces, domain = u.NamespaceToDomain ns) ∧
    (goStartsWith "admin.foo".toList "admin".toList = true ∧
      (Util.mk "admin".toList ["kube-system".toList]).IsSystemDomain
        "admin.foo".toList = false) := by
  refine ⟨?_, ?_, by decide, by decide⟩
  · intro ns
    constructor
    · intro h
      by_cases hs : u.isSystemNamespace ns
      · exact hs
      · exfalso
        have h1 : u.NamespaceToDomain ns
            = goReplace (goReplace ns ['-'] ['.']) ['.', '.'] ['-'] := by
          unfold Util.NamespaceToDomain
          rw [Bool.not_eq_true] at hs
          rw [hs]
          simp
        have hl1 : (goReplace ns ['-'] ['.']).length ≤ ns.length :=
          goReplace_length_le ns.length ns ['-'] ['.'] le_rfl (by simp)
        have hl2 : (goReplace (goReplace ns ['-'] ['.']) ['.', '.'] ['-']).length
            ≤ (goReplace ns ['-'] ['.']).length :=
          goReplace_length_le (goReplace ns ['-'] ['.']).length _ _ _ le_rfl (by simp)
        have hlen := congrArg List.length h
        rw [h1] at hlen
        simp only [List.length_append, List.length_cons] at hlen
        omega
    · intro hs
      unfold Util.NamespaceToDomain
      rw [hs]
      simp
  · intro domain
    simp [Util.IsSystemDomain, List.any_eq_true, beq_iff_eq]

/-! ## Data model: the zms SignedDomain payload mirrored by the
AthenzDomain custom resource (pkg/apis/athenz/v1/types.go).  Only the
fields read by the verified code are carried; pointer fields that the code
dereferences without a nil check are modelled as plain fields. -/

structure RoleMember where
  memberName : List Char
deriving DecidableEq

structure Role where
  name : List Char
  trust : List Char
  roleMembers : List RoleMember
deriving DecidableEq

structure Assertion where
  role : List Char
  resource : List Char
  action : List Char
deriving DecidableEq

structure Policy where
  name : List Char
  assertions : List Assertion
deriving DecidableEq

structure DomainPolicies where
  policies : List (Option Policy)
deriving DecidableEq

structure SignedPolicies where
  contents : DomainPolicies
  keyId : List Char
  signature : List Char
deriving DecidableEq

structure DomainData where
  name : List Char
  modified : Int
  roles : List Role
  policies : SignedPolicies
deriving DecidableEq

structure SignedDomain where
  domain : DomainData
  keyId : List Char
  signature : List Char
deriving DecidableEq

structure AthenzDomainStatus where
  message : List Char
deriving DecidableEq

/-- The AthenzDomain custom resource: ObjectMeta.Name (the athenz domain
name used as the store key), the status message, and the spec, which
inlines the zms SignedDomain. -/
structure AthenzDomain where
  name : List Char
  status : AthenzDomainStatus
  spec : SignedDomain
deriving DecidableEq

/-! ## ReconciliationStore: pkg/cr/cr.go.  The informer store and the
cluster state are modelled as one list of resources keyed by name. -/

/-- `GetCRByName` — get an AthenzDomain CR by domain name from the informer
store (`none` models `exist = false`; the interface-cast failure cannot
occur in the typed model). -/
def GetCRByName (store : List AthenzDomain) (domain : List Char) :
    Option AthenzDomain :=
  store.find? (fun cr => cr.name == domain)

/-- `RemoveAthenzDomain` — delete the AthenzDomain CR for this domain if one
exists. -/
def RemoveAthenzDomain (store : List AthenzDomain) (domain : List Char) :
    List AthenzDomain :=
  match GetCRByName store domain with
  | none => store
  | some _ => store.filter (fun cr => cr.name != domain)

/-- Write action observed on the CRUD client by one CreateUpdate call. -/
inductive WriteAction where
  | created
  | updated
  | noop
deriving DecidableEq

/-- The masking step of `updateCR`: a deep copy of the spec with
`Signature` and `Domain.Policies.Signature` set to the empty string. -/
def maskSignatures (s : SignedDomain) : SignedDomain :=
  { s with
    signature := [],
    domain := { s.domain with
      policies := { s.domain.policies with signature := [] } } }

/-- `updateCR` — compare the stored object and the new CR with both
signature fields cleared (`reflect.DeepEqual` on the masked specs) and
compare the statuses; when both are equal skip the update entirely,
otherwise issue an Update of the new CR (carrying over the resource
version, which the model does not track). -/
def updateCR (store : List AthenzDomain) (object newCR : AthenzDomain) :
    List AthenzDomain × WriteAction :=
  if maskSignatures object.spec = maskSignatures newCR.spec ∧
      object.status = newCR.status then
    (store, .noop)
  else
    (store.map (fun cr => if cr.name == newCR.name then newCR else cr), .updated)

/-- `CreateUpdateAthenzDomain` — create the AthenzDomain CR for `domain`
from the fetched snapshot (with an empty status message) when none exists,
otherwise run `updateCR` against the stored one. -/
def CreateUpdateAthenzDomain (store : List AthenzDomain) (domain : List Char)
    (domainData : SignedDomain) : List AthenzDomain × WriteAction :=
  let newCR : AthenzDomain := { name := domain, status := ⟨[]⟩, spec := domainData }
  match GetCRByName store domain with
  | none => (store ++ [newCR], .created)
  | some obj => updateCR store obj newCR

/-! ## Claim C3: idempotent apply with signature masking -/

/-- C3: starting from a store without the domain, a first CreateUpdate
creates the resource; a second CreateUpdate whose snapshot agrees with the
first one after clearing both signature fields (the domain signature and
the policies signature) is a no-op that leaves the store untouched — so two
calls with snapshots identical except for the signature fields perform
exactly one write.  If instead any role or policy content differs between
the snapshots, the second call performs an update. -/
theorem c3_idempotent_apply (domain : List Char) (s1 s2 : SignedDomain) :
    (maskSignatures s1 = maskSignatures s2 →
      (CreateUpdateAthenzDomain [] domain s1).2 = .created ∧
      (CreateUpdateAthenzDomain (CreateUpdateAthenzDomain [] domain s1).1
          domain s2).2 = .noop ∧
      (CreateUpdateAthenzDomain (CreateUpdateAthenzDomain [] domain s1).1
          domain s2).1 = (CreateUpdateAthenzDomain [] domain s1).1) ∧
    (s1.domain.roles ≠ s2.domain.roles ∨
        s1.domain.policies.contents ≠ s2.domain.policies.contents →
      (CreateUpdateAthenzDomain (CreateUpdateAthenzDomain [] domain s1).1
          domain s2).2 = .updated) := by
  have h1 : CreateUpdateAthenzDomain [] domain s1
      = ([{ name := domain, status := ⟨[]⟩, spec := s1 }], .created) := by
    simp [CreateUpdateAthenzDomain, GetCRByName]
  constructor
  · intro hmask
    rw [h1]
    refine ⟨rfl, ?_, ?_⟩ <;>
      simp [CreateUpdateAthenzDomain, GetCRByName, updateCR, hmask]
  · intro hdiff
    have hne : maskSignatures s1 ≠ maskSignatures s2 := by
      intro hm
      rcases hdiff with hd | hd
      · exact hd (congrArg (fun s => s.domain.roles) hm)
      · exact hd (congrArg (fun s => s.domain.policies.contents) hm)
    rw [h1]
    simp [CreateUpdateAthenzDomain, GetCRByName, updateCR, hne]

/-- C3 (witness): concrete snapshots for `home.domain` that differ only in
the two signature fields create once then no-op, and a snapshot whose role
content differs triggers an update on the second call. -/
theorem c3_witness :
    (maskSignatures
        ⟨⟨"home.domain".toList, 1561145289,
          [⟨"home.domain:role.admin".toList, [], [⟨"user.name".toList⟩]⟩],
          ⟨⟨[]⟩, "col-env-1.1".toList, "sigP1".toList⟩⟩,
        "k1".toList, "sig1".toList⟩
      = maskSignatures
        ⟨⟨"home.domain".toList, 1561145289,
          [⟨"home.domain:role.admin".toList, [], [⟨"user.name".toList⟩]⟩],
          ⟨⟨[]⟩, "col-env-1.1".toList, "sigP2".toList⟩⟩,
        "k1".toList, "sig2".toList⟩) ∧
    (CreateUpdateAthenzDomain [] "home.domain".toList
        ⟨⟨"home.domain".toList, 1561145289,
          [⟨"home.domain:role.admin".toList, [], [⟨"user.name".toList⟩]⟩],
          ⟨⟨[]⟩, "col-env-1.1".toList, "sigP1".toList⟩⟩,
        "k1".toList, "sig1".toList⟩).2 = .created ∧
    (CreateUpdateAthenzDomain
        (CreateUpdateAthenzDomain [] "home.domain".toList
          ⟨⟨"home.domain".toList, 1561145289,
            [⟨"home.domain:role.admin".toList, [], [⟨"user.name".toList⟩]⟩],
            ⟨⟨[]⟩, "col-env-1.1".toList, "sigP1".toList⟩⟩,
          "k1".toList, "sig1".toList⟩).1
        "home.domain".toList
        ⟨⟨"home.domain".toList, 1561145289,
          [⟨"home.domain:role.admin".toList, [], [⟨"user.name".toList⟩]⟩],
          ⟨⟨[]⟩, "col-env-1.1".toList, "sigP2".toList⟩⟩,
        "k1".toList, "sig2".toList⟩).2 = .noop ∧
    (CreateUpdateAthenzDomain
        (CreateUpdateAthenzDomain [] "home.domain".toList
          ⟨⟨"home.domain".toList, 1561145289,
            [⟨"home.domain:role.admin".toList, [], [⟨"user.name".toList⟩]⟩],
            ⟨⟨[]⟩, "col-env-1.1".toList, "sigP1".toList⟩⟩,
          "k1".toList, "sig1".toList⟩).1
        "home.domain".toList
        ⟨⟨"home.domain".toList, 1561145289,
          [⟨"home.domain:role.other".toList, [], []⟩],
          ⟨⟨[]⟩, "col-env-1.1".toList, "sigP1".toList⟩⟩,
        "k1".toList, "sig1".toList⟩).2 = .updated := by
  refine ⟨by decide, ?_, ?_, ?_⟩
  · exact ((c3_idempotent_apply "home.domain".toList
      ⟨⟨"home.domain".toList, 1561145289,
        [⟨"home.domain:role.admin".toList, [], [⟨"user.name".toList⟩]⟩],
        ⟨⟨[]⟩, "col-env-1.1".toList, "sigP1".toList⟩⟩,
        "k1".toList, "sig1".toList⟩
      ⟨⟨"home.domain".toList, 1561145289,
        [⟨"home.domain:role.admin".toList, [], [⟨"user.name".toList⟩]⟩],
        ⟨⟨[]⟩, "col-env-1.1".toList, "sigP2".toList⟩⟩,
        "k1".toList, "sig2".toList⟩).1 (by decide)).1
  · exact ((c3_idempotent_apply "home.domain".toList
      ⟨⟨"home.domain".toList, 1561145289,
        [⟨"home.domain:role.admin".toList, [], [⟨"user.name".toList⟩]⟩],
        ⟨⟨[]⟩, "col-env-1.1".toList, "sigP1".toList⟩⟩,
        "k1".toList, "sig1".toList⟩
      ⟨⟨"home.domain".toList, 1561145289,
        [⟨"home.domain:role.admin".toList, [], [⟨"user.name".toList⟩]⟩],
        ⟨⟨[]⟩, "col-env-1.1".toList, "sigP2".toList⟩⟩,
        "k1".toList, "sig2".toList⟩).1 (by decide)).2.1
  · exact (c3_idempotent_apply "home.domain".toList
      ⟨⟨"home.domain".toList, 1561145289,
        [⟨"home.domain:role.admin".toList, [], [⟨"user.name".toList⟩]⟩],
        ⟨⟨[]⟩, "col-env-1.1".toList, "sigP1".toList⟩⟩,
        "k1".toList, "sig1".toList⟩
      ⟨⟨"home.domain".toList, 1561145289,
        [⟨"home.domain:role.other".toList, [], []⟩],
        ⟨⟨[]⟩, "col-env-1.1".toList, "sigP1".toList⟩⟩,
        "k1".toList, "sig1".toList⟩).2 (by decide)

/-! ## TrustResolver: ProcessTrustDomain in pkg/util/util.go -/

/-- Models the anchored regular-expression test
`regexp.MatchString("^"+roleReplacer.Replace(assertion.Resource)+"$", roleName)`:
`roleReplacer` rewrites `*` to `.*` and `?` to `.` and escapes every other
regex metacharacter, so the compiled anchored pattern is exactly a glob:
`*` matches any character sequence, `?` any single character, and every
other character only itself.  The escaped pattern always compiles, so the
branch that skips an assertion on a regex error is unreachable. -/
def globMatch : List Char → List Char → Bool
  | [], [] => true
  | [], _ :: _ => false
  | '*' :: p, [] => globMatch p []
  | '*' :: p, c :: s => globMatch p (c :: s) || globMatch ('*' :: p) s
  | _ :: _, [] => false
  | c :: p, d :: s => (c == '?' || c == d) && globMatch p s
termination_by p s => p.length + s.length
decreasing_by all_goals simp only [List.length_cons]; omega

/-- An assertion triggers trust resolution when its action is exactly
`assume_role` and its resource pattern matches the delegated role name. -/
def assertionMatches (a : Assertion) (roleName : List Char) : Bool :=
  a.action == "assume_role".toList && globMatch a.resource roleName

/-- Inner loop of `ProcessTrustDomain` over the trust domain's roles: the
first role whose name equals the matched assertion's role decides the
result — an empty member list when that role itself delegates trust
further (non-empty `Trust`), its member list otherwise.  When no role
carries the name the assertion loop continues (`none`). -/
def findDelegatedRole : List Role → List Char → Option (List RoleMember)
  | [], _ => none
  | role :: rest, delegatedRole =>
    if role.name == delegatedRole then
      if role.trust ≠ [] then some [] else some role.roleMembers
    else findDelegatedRole rest delegatedRole

/-- Middle loop over one policy's assertions: the first assertion with
action `assume_role` whose resource pattern matches the role name and
whose named role exists in the trust domain decides the result. -/
def processAssertions (roles : List Role) (roleName : List Char) :
    List Assertion → Option (List RoleMember)
  | [] => none
  | a :: rest =>
    if assertionMatches a roleName then
      match findDelegatedRole roles a.role with
      | some res => some res
      | none => processAssertions roles roleName rest
    else processAssertions roles roleName rest

/-- Outer loop over the trust domain's policies, skipping nil policies and
policies without assertions. -/
def processPolicies (roles : List Role) (roleName : List Char) :
    List (Option Policy) → List RoleMember
  | [] => []
  | none :: rest => processPolicies roles roleName rest
  | some p :: rest =>
    if p.assertions.isEmpty then processPolicies roles roleName rest
    else
      match processAssertions roles roleName p.assertions with
      | some res => res
      | none => processPolicies roles roleName rest

/-- `ProcessTrustDomain` — look up the trust domain in the local informer
cache (an error when absent), then scan its policies for an `assume_role`
assertion matching the delegated role name and resolve the assertion's
role one level only. -/
def ProcessTrustDomain (store : List AthenzDomain) (trust roleName : List Char) :
    Except (List Char) (List RoleMember) :=
  match GetCRByName store trust with
  | none => .error ("Domain cr is not found in the cache store".toList)
  | some obj =>
    .ok (processPolicies obj.spec.domain.roles roleName
      obj.spec.domain.policies.contents.policies)

/-! ### Loop lemmas for C4 -/

theorem findDelegatedRole_of_find (n : List Char) (R : Role) :
    ∀ roles : List Role, roles.find? (fun r => r.name == n) = some R →
      findDelegatedRole roles n
        = some (if R.trust ≠ [] then [] else R.roleMembers) := by
  intro roles
  induction roles with
  | nil => intro h; exact absurd h (by simp)
  | cons r rest ihr =>
    intro h
    by_cases hb : (r.name == n) = true
    · simp only [List.find?_cons, hb, Option.some.injEq] at h
      subst h
      unfold findDelegatedRole
      rw [if_pos hb]
      by_cases ht : r.trust ≠ [] <;> simp [ht]
    · rw [Bool.not_eq_true] at hb
      simp only [List.find?_cons, hb] at h
      unfold findDelegatedRole
      rw [if_neg (by simp [hb])]
      exact ihr h

theorem processAssertions_none (roles : List Role) (roleName : List Char) :
    ∀ asserts : List Assertion,
      (∀ a ∈ asserts, assertionMatches a roleName = false) →
      processAssertions roles roleName asserts = none := by
  intro asserts
  induction asserts with
  | nil => intro _; rfl
  | cons a rest iha =>
    intro h
    unfold processAssertions
    rw [if_neg (by simp [h a (by simp)])]
    exact iha (fun a' ha' => h a' (by simp [ha']))

theorem processAssertions_unique (roles : List Role) (roleName : List Char)
    (a : Assertion) (v : List RoleMember)
    (hmatch : assertionMatches a roleName = true)
    (hrole : findDelegatedRole roles a.role = some v) :
    ∀ asserts : List Assertion, a ∈ asserts →
      (∀ a' ∈ asserts, assertionMatches a' roleName = true → a' = a) →
      processAssertions roles roleName asserts = some v := by
  intro asserts
  induction asserts with
  | nil => intro hmem; exact absurd hmem (by simp)
  | cons b rest iha =>
    intro hmem huniq
    by_cases hba : b = a
    · subst hba
      unfold processAssertions
      rw [if_pos hmatch, hrole]
    · have hmem' : a ∈ rest := by
        rcases List.mem_cons.mp hmem with h | h
        · exact absurd h.symm hba
        · exact h
      have hbf : assertionMatches b roleName = false := by
        by_contra hb
        rw [Bool.not_eq_false] at hb
        exact hba (huniq b (by simp) hb)
      unfold processAssertions
      rw [if_neg (by simp [hbf])]
      exact iha hmem' (fun a' ha' => huniq a' (by simp [ha']))

theorem processPolicies_no_match (roles : List Role) (roleName : List Char) :
    ∀ pols : List (Option Policy),
      (∀ pol ∈ pols, ∀ p : Policy, pol = some p →
        ∀ a ∈ p.assertions, assertionMatches a roleName = false) →
      processPolicies roles roleName pols = [] := by
  intro pols
  induction pols with
  | nil => intro _; rfl
  | cons pol rest ihp =>
    intro h
    have hrest := ihp (fun pol' hmem p hp a ha => h pol' (by simp [hmem]) p hp a ha)
    rcases pol with _ | p
    · exact hrest
    · unfold processPolicies
      by_cases he : p.assertions.isEmpty
      · rw [if_pos he]
        exact hrest
      · rw [if_neg he,
          processAssertions_none roles roleName p.assertions
            (fun a ha => h (some p) (by simp) p rfl a ha)]
        exact hrest

theorem processPolicies_unique (roles : List Role) (roleName : List Char)
    (p : Policy) (a : Assertion) (v : List RoleMember)
    (ha : a ∈ p.assertions)
    (hmatch : assertionMatches a roleName = true)
    (hrole : findDelegatedRole roles a.role = some v) :
    ∀ pols : List (Option Policy), some p ∈ pols →
      (∀ pol ∈ pols, ∀ p' : Policy, pol = some p' →
        ∀ a' ∈ p'.assertions, assertionMatches a' roleName = true → a' = a) →
      processPolicies roles roleName pols = v := by
  intro pols
  induction pols with
  | nil => intro hmem; exact absurd hmem (by simp)
  | cons pol rest ihp =>
    intro hmem huniq
    have huniqrest : ∀ pol' ∈ rest, ∀ p' : Policy, pol' = some p' →
        ∀ a' ∈ p'.assertions, assertionMatches a' roleName = true → a' = a :=
      fun pol' hmem' p' hp' a' ha' hm' => huniq pol' (by simp [hmem']) p' hp' a' ha' hm'
    rcases pol with _ | q
    · have hmem' : some p ∈ rest := by
        rcases List.mem_cons.mp hmem with h | h
        · exact absurd h (by simp)
        · exact h
      exact ihp hmem' huniqrest
    · by_cases hq : q.assertions.any (fun a' => assertionMatches a' roleName)
      · -- the head policy contains a matching assertion, which must be `a`
        rw [List.any_eq_true] at hq
        obtain ⟨a'', ha'', hm''⟩ := hq
        have haa : a'' = a := huniq (some q) (by simp) q rfl a''
          ha'' (by simpa using hm'')
        subst haa
        have hane : ¬q.assertions.isEmpty := by
          intro hemp
          rw [List.isEmpty_iff] at hemp
          rw [hemp] at ha''
          exact absurd ha'' (by simp)
        unfold processPolicies
        rw [if_neg hane,
          processAssertions_unique roles roleName a'' v hmatch hrole q.assertions
            ha'' (fun a' ha' hm' => huniq (some q) (by simp) q rfl a' ha' hm')]
      · -- the head policy has no matching assertion, so `p` sits in the tail
        rw [List.any_eq_true] at hq
        push_neg at hq
        have hnone : ∀ a' ∈ q.assertions, assertionMatches a' roleName = false := by
          intro a' ha'
          have := hq a' ha'
          simpa using this
        have hmem' : some p ∈ rest := by
          rcases List.mem_cons.mp hmem with h | h
          · exfalso
            have hqp : q = p := by simpa using h.symm
            subst hqp
            rw [hnone a ha] at hmatch
            exact absurd hmatch (by simp)
          · exact h
        unfold processPolicies
        by_cases he : q.assertions.isEmpty
        · rw [if_pos he]
          exact ihp hmem' huniqrest
        · rw [if_neg he, processAssertions_none roles roleName q.assertions hnone]
          exact ihp hmem' huniqrest

/-! ## Claim C4: one-hop trust resolution -/

/-- C4: for every cached store and delegated role name: a trust domain
absent from the cache yields an error; when the trust domain is cached and
no policy assertion matches (action `assume_role`, glob resource pattern
anchored as a regular expression against the role name), the result is an
empty list with no error; and when exactly one assertion matches (read as
unique so that "the assertion's role" is well defined) and the first role
of the trust domain carrying the assertion's role name is `R`, the result
is the empty member list when `R` has a non-empty trust target (delegation
is resolved one level only) and `R`'s member list when it has none. -/
theorem c4_one_hop_trust (store : List AthenzDomain) (trust roleName : List Char) :
    (GetCRByName store trust = none →
      ∃ e, ProcessTrustDomain store trust roleName = .error e) ∧
    (∀ obj, GetCRByName store trust = some obj →
      ((∀ pol ∈ obj.spec.domain.policies.contents.policies, ∀ p : Policy,
          pol = some p → ∀ a ∈ p.assertions,
          assertionMatches a roleName = false) →
        ProcessTrustDomain store trust roleName = .ok []) ∧
      (∀ (p : Policy) (a : Assertion) (R : Role),
        some p ∈ obj.spec.domain.policies.contents.policies →
        a ∈ p.assertions →
        assertionMatches a roleName = true →
        (∀ pol ∈ obj.spec.domain.policies.contents.policies, ∀ p' : Policy,
          pol = some p' → ∀ a' ∈ p'.assertions,
          assertionMatches a' roleName = true → a' = a) →
        obj.spec.domain.roles.find? (fun r => r.name == a.role) = some R →
        ((R.trust ≠ [] → ProcessTrustDomain store trust roleName = .ok []) ∧
          (R.trust = [] →
            ProcessTrustDomain store trust roleName = .ok R.roleMembers)))) := by
  constructor
  · intro hnone
    refine ⟨"Domain cr is not found in the cache store".toList, ?_⟩
    unfold ProcessTrustDomain
    rw [hnone]
  · intro obj hsome
    have hok : ProcessTrustDomain store trust roleName
        = .ok (processPolicies obj.spec.domain.roles roleName
            obj.spec.domain.policies.contents.policies) := by
      unfold ProcessTrustDomain
      rw [hsome]
    constructor
    · intro hno
      rw [hok, processPolicies_no_match obj.spec.domain.roles roleName
        obj.spec.domain.policies.contents.policies hno]
    · intro p a R hpmem hamem hmatch huniq hfind
      constructor
      · intro htr
        have hrole := findDelegatedRole_of_find a.role R obj.spec.domain.roles hfind
        rw [if_pos htr] at hrole
        rw [hok, processPolicies_unique obj.spec.domain.roles roleName p a []
          hamem hmatch hrole obj.spec.domain.policies.contents.policies hpmem huniq]
      · intro htr
        have hrole := findDelegatedRole_of_find a.role R obj.spec.domain.roles hfind
        rw [if_neg (by simp [htr])] at hrole
        rw [hok, processPolicies_unique obj.spec.domain.roles roleName p a
          R.roleMembers hamem hmatch hrole
          obj.spec.domain.policies.contents.policies hpmem huniq]

/-- C4 (witness): the spec scenario — trust domain `parent.domain` holds a
policy granting `assume_role` on resource `home.domain:role.trust` to its
local non-delegating role with member `user.one`; resolving
`home.domain:role.trust` against it yields exactly that member list. -/
theorem c4_witness :
    assertionMatches
        ⟨"parent.domain:role.tr".toList, "home.domain:role.trust".toList,
          "assume_role".toList⟩ "home.domain:role.trust".toList = true ∧
    ProcessTrustDomain
        [⟨"parent.domain".toList, ⟨[]⟩,
          ⟨⟨"parent.domain".toList, 0,
            [⟨"parent.domain:role.tr".toList, [], [⟨"user.one".toList⟩]⟩],
            ⟨⟨[some ⟨"parent.domain:policy.admin".toList,
              [⟨"parent.domain:role.tr".toList, "home.domain:role.trust".toList,
                "assume_role".toList⟩]⟩]⟩, "k".toList, "ps".toList⟩⟩,
          "k".toList, "s".toList⟩⟩]
        "parent.domain".toList "home.domain:role.trust".toList
      = .ok [⟨"user.one".toList⟩] := by
  have hm : assertionMatches
      ⟨"parent.domain:role.tr".toList, "home.domain:role.trust".toList,
        "assume_role".toList⟩ "home.domain:role.trust".toList = true := by
    simp [assertionMatches, globMatch]
  refine ⟨hm, ?_⟩
  exact (((c4_one_hop_trust
      [⟨"parent.domain".toList, ⟨[]⟩,
        ⟨⟨"parent.domain".toList, 0,
          [⟨"parent.domain:role.tr".toList, [], [⟨"user.one".toList⟩]⟩],
          ⟨⟨[some ⟨"parent.domain:policy.admin".toList,
            [⟨"parent.domain:role.tr".toList, "home.domain:role.trust".toList,
              "assume_role".toList⟩]⟩]⟩, "k".toList, "ps".toList⟩⟩,
        "k".toList, "s".toList⟩⟩]
      "parent.domain".toList "home.domain:role.trust".toList).2
      ⟨"parent.domain".toList, ⟨[]⟩,
        ⟨⟨"parent.domain".toList, 0,
          [⟨"parent.domain:role.tr".toList, [], [⟨"user.one".toList⟩]⟩],
          ⟨⟨[some ⟨"parent.domain:policy.admin".toList,
            [⟨"parent.domain:role.tr".toList, "home.domain:role.trust".toList,
              "assume_role".toList⟩]⟩]⟩, "k".toList, "ps".toList⟩⟩,
        "k".toList, "s".toList⟩⟩
      (by decide)).2
      ⟨"parent.domain:policy.admin".toList,
        [⟨"parent.domain:role.tr".toList, "home.domain:role.trust".toList,
          "assume_role".toList⟩]⟩
      ⟨"parent.domain:role.tr".toList, "home.domain:role.trust".toList,
        "assume_role".toList⟩
      ⟨"parent.domain:role.tr".toList, [], [⟨"user.one".toList⟩]⟩
      (by decide)
      (by decide)
      hm
      (by
        intro pol hpol p' hp' a' ha' hm'
        simp only [List.mem_singleton] at hpol
        subst hpol
        rw [Option.some.injEq] at hp'
        subst hp'
        simpa using ha')
      (by decide)).2 rfl

/-! ## AdmissionRateLimiter: pkg/ratelimiter/ratelimiter.go.  Time points
and durations are Ints (milliseconds); `time.Now()` is passed explicitly
as `now`.  The failures map is an association list with the Go-map default
of 0 for missing keys. -/

/-- One key of the failures map with its stored count. -/
def failuresGet : List (List Char × Int) → List Char → Int
  | [], _ => 0
  | p :: rest, item => if p.1 == item then p.2 else failuresGet rest item

/-- Store a count for a key (update in place, insert when absent). -/
def failuresSet : List (List Char × Int) → List Char → Int → List (List Char × Int)
  | [], item, v => [(item, v)]
  | p :: rest, item, v =>
    if p.1 == item then (item, v) :: rest else p :: failuresSet rest item v

/-- Delete a key (Go `delete`). -/
def failuresDel : List (List Char × Int) → List Char → List (List Char × Int)
  | [], _ => []
  | p :: rest, item =>
    if p.1 == item then failuresDel rest item else p :: failuresDel rest item

/-- `RateLimiter` — per-item failure counts plus the single shared delay
cursor and the fixed interval. -/
structure RateLimiter where
  failures : List (List Char × Int)
  currentDelay : Int
  delayInterval : Int
deriving DecidableEq

/-- `NewRateLimiter` — empty failures map, cursor one interval in the
past. -/
def NewRateLimiter (now delayInterval : Int) : RateLimiter :=
  { failures := [], currentDelay := now - delayInterval,
    delayInterval := delayInterval }

/-- `When` — increment the item's failure count; then, if `now` is after
`currentDelay + delayInterval`, reset the cursor to `now` and return zero
delay, otherwise advance the cursor by the interval and return
`currentDelay - now` computed on the advanced cursor. -/
def When (r : RateLimiter) (item : List Char) (now : Int) : RateLimiter × Int :=
  let r1 := { r with
    failures := failuresSet r.failures item (failuresGet r.failures item + 1) }
  let newDelay := r.currentDelay + r.delayInterval
  if now > newDelay then
    ({ r1 with currentDelay := now }, 0)
  else
    ({ r1 with currentDelay := newDelay }, newDelay - now)

/-- `Forget` — remove the failure count for an item. -/
def Forget (r : RateLimiter) (item : List Char) : RateLimiter :=
  { r with failures := failuresDel r.failures item }

/-- `NumRequeues` — the stored retry count for an item. -/
def NumRequeues (r : RateLimiter) (item : List Char) : Int :=
  failuresGet r.failures item

/-! ### Field lemmas for `When` -/

theorem When_failures (r : RateLimiter) (item : List Char) (now : Int) :
    (When r item now).1.failures
      = failuresSet r.failures item (failuresGet r.failures item + 1) := by
  unfold When
  dsimp only
  split_ifs <;> rfl

theorem When_delayInterval (r : RateLimiter) (item : List Char) (now : Int) :
    (When r item now).1.delayInterval = r.delayInterval := by
  unfold When
  dsimp only
  split_ifs <;> rfl

theorem When_currentDelay (r : RateLimiter) (item : List Char) (now : Int) :
    (When r item now).1.currentDelay
      = if now > r.currentDelay + r.delayInterval then now
        else r.currentDelay + r.delayInterval := by
  unfold When
  dsimp only
  split_ifs <;> rfl

theorem When_delay (r : RateLimiter) (item : List Char) (now : Int) :
    (When r item now).2
      = if now > r.currentDelay + r.delayInterval then 0
        else r.currentDelay + r.delayInterval - now := by
  unfold When
  dsimp only
  split_ifs <;> rfl

theorem failuresGet_set_self (item : List Char) (v : Int) :
    ∀ m : List (List Char × Int), failuresGet (failuresSet m item v) item = v := by
  intro m
  induction m with
  | nil => simp [failuresGet, failuresSet]
  | cons p rest ihm =>
    by_cases hp : (p.1 == item) = true
    · simp [failuresGet, failuresSet, hp]
    · rw [Bool.not_eq_true] at hp
      simp [failuresGet, failuresSet, hp, ihm]

theorem failuresGet_set_other (item item' : List Char) (v : Int)
    (hne : (item == item') = false) :
    ∀ m : List (List Char × Int),
      failuresGet (failuresSet m item v) item' = failuresGet m item' := by
  intro m
  induction m with
  | nil => simp [failuresGet, failuresSet, hne]
  | cons p rest ihm =>
    by_cases hp : (p.1 == item) = true
    · have hp' : (p.1 == item') = false := by
        have h1 : p.1 = item := by simpa using hp
        subst h1
        exact hne
      simp [failuresGet, failuresSet, hp, hp', hne]
    · rw [Bool.not_eq_true] at hp
      simp [failuresGet, failuresSet, hp, ihm]

theorem failuresGet_del_self (item : List Char) :
    ∀ m : List (List Char × Int), failuresGet (failuresDel m item) item = 0 := by
  intro m
  induction m with
  | nil => rfl
  | cons p rest ihm =>
    by_cases hp : (p.1 == item) = true
    · simp [failuresDel, hp, ihm]
    · rw [Bool.not_eq_true] at hp
      simp [failuresDel, failuresGet, hp, ihm]

theorem failuresGet_del_other (item item' : List Char)
    (hne : (item == item') = false) :
    ∀ m : List (List Char × Int),
      failuresGet (failuresDel m item) item' = failuresGet m item' := by
  intro m
  induction m with
  | nil => rfl
  | cons p rest ihm =>
    by_cases hp : (p.1 == item) = true
    · have hp' : (p.1 == item') = false := by
        have h1 : p.1 = item := by simpa using hp
        subst h1
        exact hne
      simp [failuresDel, failuresGet, hp, hp', ihm]
    · rw [Bool.not_eq_true] at hp
      simp [failuresDel, failuresGet, hp, ihm]

theorem NumRequeues_When (r : RateLimiter) (item item' : List Char) (now : Int) :
    NumRequeues (When r item now).1 item'
      = if item == item' then NumRequeues r item' + 1 else NumRequeues r item' := by
  unfold NumRequeues
  rw [When_failures]
  by_cases hii : (item == item') = true
  · have h1 : item = item' := by simpa using hii
    subst h1
    rw [if_pos hii, failuresGet_set_self]
  · rw [Bool.not_eq_true] at hii
    rw [if_neg (by simp [hii]), failuresGet_set_other item item' _ hii]

theorem NumRequeues_Forget (r : RateLimiter) (item item' : List Char) :
    NumRequeues (Forget r item) item'
      = if item == item' then 0 else NumRequeues r item' := by
  unfold NumRequeues Forget
  by_cases hii : (item == item') = true
  · have h1 : item = item' := by simpa using hii
    subst h1
    rw [if_pos hii]
    exact failuresGet_del_self item r.failures
  · rw [Bool.not_eq_true] at hii
    rw [if_neg (by simp [hii])]
    exact failuresGet_del_other item item' hii r.failures

/-! ## Claim C5: rate limiter burst shaping -/

/-- C5: `NewRateLimiter` seeds the cursor at `now - interval`; each `When`
call resets the cursor to `now` with zero delay when `now` is after
`currentDelay + interval`, and otherwise advances the cursor by the
interval and returns `currentDelay - now` on the advanced cursor.  In
particular, with interval 250, three back-to-back calls at the creation
instant return delays 0, 250, 500, and a fourth call issued 750 later
returns 0 — whatever items are passed. -/
theorem c5_rate_limiter_burst (r : RateLimiter) (item i1 i2 i3 i4 : List Char)
    (now t0 : Int) :
    (NewRateLimiter t0 250).currentDelay = t0 - 250 ∧
    (now > r.currentDelay + r.delayInterval →
      (When r item now).1.currentDelay = now ∧ (When r item now).2 = 0) ∧
    (¬now > r.currentDelay + r.delayInterval →
      (When r item now).1.currentDelay = r.currentDelay + r.delayInterval ∧
      (When r item now).2 = r.currentDelay + r.delayInterval - now) ∧
    ((When (NewRateLimiter t0 250) i1 t0).2 = 0 ∧
      (When (When (NewRateLimiter t0 250) i1 t0).1 i2 t0).2 = 250 ∧
      (When (When (When (NewRateLimiter t0 250) i1 t0).1 i2 t0).1 i3 t0).2 = 500 ∧
      (When (When (When (When (NewRateLimiter t0 250) i1 t0).1 i2 t0).1 i3 t0).1
        i4 (t0 + 750)).2 = 0) := by
  have hd1 : (When (NewRateLimiter t0 250) i1 t0).1.currentDelay = t0 := by
    rw [When_currentDelay]
    dsimp only [NewRateLimiter]
    rw [if_neg (by omega)]
    omega
  have hi1 : (When (NewRateLimiter t0 250) i1 t0).1.delayInterval = 250 :=
    When_delayInterval _ _ _
  have hd2 : (When (When (NewRateLimiter t0 250) i1 t0).1 i2 t0).1.currentDelay
      = t0 + 250 := by
    rw [When_currentDelay, hd1, hi1, if_neg (by omega)]
  have hi2 : (When (When (NewRateLimiter t0 250) i1 t0).1 i2 t0).1.delayInterval
      = 250 := by
    rw [When_delayInterval, hi1]
  have hd3 : (When (When (When (NewRateLimiter t0 250) i1 t0).1 i2 t0).1
      i3 t0).1.currentDelay = t0 + 500 := by
    rw [When_currentDelay, hd2, hi2, if_neg (by omega)]
    omega
  have hi3 : (When (When (When (NewRateLimiter t0 250) i1 t0).1 i2 t0).1
      i3 t0).1.delayInterval = 250 := by
    rw [When_delayInterval, hi2]
  refine ⟨rfl, ?_, ?_, ?_, ?_, ?_, ?_⟩
  · intro h
    rw [When_currentDelay, When_delay, if_pos h, if_pos h]
    exact ⟨rfl, rfl⟩
  · intro h
    rw [When_currentDelay, When_delay, if_neg h, if_neg h]
    exact ⟨rfl, rfl⟩
  · rw [When_delay]
    dsimp only [NewRateLimiter]
    rw [if_neg (by omega)]
    omega
  · rw [When_delay, hd1, hi1, if_neg (by omega)]
    omega
  · rw [When_delay, hd2, hi2, if_neg (by omega)]
    omega
  · rw [When_delay, hd3, hi3, if_neg (by omega)]
    omega

/-- C5 (witness): both cursor branches and the burst at a concrete start
time 0 with concrete items. -/
theorem c5_witness :
    ((300:Int) > (⟨[], 0, 250⟩ : RateLimiter).currentDelay
        + (⟨[], 0, 250⟩ : RateLimiter).delayInterval) ∧
    (When (⟨[], 0, 250⟩ : RateLimiter) "a".toList 300).1.currentDelay = 300 ∧
    (When (⟨[], 0, 250⟩ : RateLimiter) "a".toList 300).2 = 0 ∧
    (When (NewRateLimiter 0 250) "key-one".toList 0).2 = 0 ∧
    (When (When (NewRateLimiter 0 250) "key-one".toList 0).1
      "key-two".toList 0).2 = 250 ∧
    (When (When (When (NewRateLimiter 0 250) "key-one".toList 0).1
      "key-two".toList 0).1 "key-three".toList 0).2 = 500 ∧
    (When (When (When (When (NewRateLimiter 0 250) "key-one".toList 0).1
      "key-two".toList 0).1 "key-three".toList 0).1
      "key-four".toList (0 + 750)).2 = 0 := by
  have h := c5_rate_limiter_burst (⟨[], 0, 250⟩ : RateLimiter) "a".toList
    "key-one".toList "key-two".toList "key-three".toList "key-four".toList 300 0
  exact ⟨by decide, (h.2.1 (by decide)).1, (h.2.1 (by decide)).2,
    h.2.2.2.1, h.2.2.2.2.1, h.2.2.2.2.2.1, h.2.2.2.2.2.2⟩

/-! ## Claim C10: implicit rate limiter invariants -/

/-- One recorded call against the rate limiter. -/
inductive RLOp where
  | callWhen (item : List Char) (now : Int)
  | callForget (item : List Char)
deriving DecidableEq

/-- Apply one call to the limiter state. -/
def applyOp (r : RateLimiter) : RLOp → RateLimiter
  | .callWhen item now => (When r item now).1
  | .callForget item => Forget r item

/-- Apply a call sequence left to right. -/
def applyOps (r : RateLimiter) : List RLOp → RateLimiter
  | [] => r
  | op :: rest => applyOps (applyOp r op) rest

/-- The delays returned by the `When` calls of a sequence. -/
def delaysOf (r : RateLimiter) : List RLOp → List Int
  | [] => []
  | .callWhen item now :: rest =>
    (When r item now).2 :: delaysOf (When r item now).1 rest
  | .callForget item :: rest => delaysOf (Forget r item) rest

/-- Claim-side counter: the number of `When` calls for the item since the
last `Forget` of it (0 when there is none). -/
def countSinceForget (item : List Char) (ops : List RLOp) : Int :=
  ops.foldl (fun acc op =>
    match op with
    | .callWhen i _ => if i == item then acc + 1 else acc
    | .callForget i => if i == item then 0 else acc) 0

theorem applyOps_interval :
    ∀ (ops : List RLOp) (r : RateLimiter),
      (applyOps r ops).delayInterval = r.delayInterval := by
  intro ops
  induction ops with
  | nil => intro r; rfl
  | cons op rest iho =>
    intro r
    rcases op with ⟨item, now⟩ | ⟨item⟩
    · rw [show applyOps r (RLOp.callWhen item now :: rest)
          = applyOps (When r item now).1 rest from rfl,
        iho, When_delayInterval]
    · exact iho (Forget r item)

theorem applyOps_cursor_mono :
    ∀ (ops : List RLOp) (r : RateLimiter), 0 < r.delayInterval →
      r.currentDelay ≤ (applyOps r ops).currentDelay := by
  intro ops
  induction ops with
  | nil => intro r _; exact le_refl _
  | cons op rest iho =>
    intro r hpos
    rcases op with ⟨item, now⟩ | ⟨item⟩
    · have hstep : r.currentDelay ≤ (When r item now).1.currentDelay := by
        rw [When_currentDelay]
        split_ifs with h <;> omega
      have htail := iho (When r item now).1 (by rwa [When_delayInterval])
      exact le_trans hstep htail
    · exact iho (Forget r item) hpos

theorem applyOps_append (xs ys : List RLOp) :
    ∀ r : RateLimiter, applyOps r (xs ++ ys) = applyOps (applyOps r xs) ys := by
  induction xs with
  | nil => intro r; rfl
  | cons op rest ihx => intro r; exact ihx (applyOp r op)

theorem delaysOf_nonneg :
    ∀ (ops : List RLOp) (r : RateLimiter) (δ : Int),
      δ ∈ delaysOf r ops → 0 ≤ δ := by
  intro ops
  induction ops with
  | nil => intro r δ h; exact absurd h (by simp [delaysOf])
  | cons op rest iho =>
    intro r δ h
    rcases op with ⟨item, now⟩ | ⟨item⟩
    · rw [show delaysOf r (RLOp.callWhen item now :: rest)
          = (When r item now).2 :: delaysOf (When r item now).1 rest from rfl] at h
      rcases List.mem_cons.mp h with h1 | h1
      · subst h1
        rw [When_delay]
        split_ifs with hc <;> omega
      · exact iho _ _ h1
    · exact iho (Forget r item) δ h

theorem applyOps_numRequeues (item : List Char) :
    ∀ (ops : List RLOp) (r : RateLimiter),
      NumRequeues (applyOps r ops) item
        = ops.foldl (fun acc op =>
            match op with
            | RLOp.callWhen i _ => if i == item then acc + 1 else acc
            | RLOp.callForget i => if i == item then 0 else acc)
          (NumRequeues r item) := by
  intro ops
  induction ops with
  | nil => intro r; rfl
  | cons op rest iho =>
    intro r
    rcases op with ⟨i, n⟩ | ⟨i⟩
    · rw [show applyOps r (RLOp.callWhen i n :: rest)
          = applyOps (When r i n).1 rest from rfl, iho,
        List.foldl_cons, NumRequeues_When]
    · rw [show applyOps r (RLOp.callForget i :: rest)
          = applyOps (Forget r i) rest from rfl, iho,
        List.foldl_cons, NumRequeues_Forget]

theorem countSinceForget_nonneg (item : List Char) :
    ∀ (ops : List RLOp) (acc : Int), 0 ≤ acc →
      0 ≤ ops.foldl (fun acc op =>
        match op with
        | RLOp.callWhen i _ => if i == item then acc + 1 else acc
        | RLOp.callForget i => if i == item then 0 else acc) acc := by
  intro ops
  induction ops with
  | nil => intro acc h; simpa using h
  | cons op rest iho =>
    intro acc h
    rw [List.foldl_cons]
    rcases op with ⟨i, n⟩ | ⟨i⟩ <;>
      · dsimp only
        refine iho _ ?_
        split_ifs <;> omega

/-- C10: for every call sequence against a limiter with a positive
interval, every delay `When` returns is non-negative, the cursor never
decreases across the sequence, and `NumRequeues` of an item equals the
number of `When` calls for it since its last `Forget` (hence is
non-negative, and zero for an item never admitted or just forgotten). -/
theorem c10_rate_limiter_invariants (interval t0 : Int) (ops more : List RLOp)
    (item : List Char) (hpos : 0 < interval) :
    (∀ δ ∈ delaysOf (NewRateLimiter t0 interval) ops, 0 ≤ δ) ∧
    (applyOps (NewRateLimiter t0 interval) ops).currentDelay
      ≤ (applyOps (NewRateLimiter t0 interval) (ops ++ more)).currentDelay ∧
    NumRequeues (applyOps (NewRateLimiter t0 interval) ops) item
      = countSinceForget item ops ∧
    0 ≤ NumRequeues (applyOps (NewRateLimiter t0 interval) ops) item := by
  have hbase : NumRequeues (NewRateLimiter t0 interval) item = 0 := rfl
  have hnum := applyOps_numRequeues item ops (NewRateLimiter t0 interval)
  rw [hbase] at hnum
  refine ⟨fun δ h => delaysOf_nonneg ops _ δ h, ?_, hnum, ?_⟩
  · rw [applyOps_append]
    exact applyOps_cursor_mono more _
      (by rw [applyOps_interval]; exact hpos)
  · rw [hnum]
    exact countSinceForget_nonneg item ops 0 le_rfl

/-- C10 (witness): a concrete call sequence with interval 250 exercising
admissions, a forget, and a re-admission of the same item. -/
theorem c10_witness :
    (0:Int) < 250 ∧
    (∀ δ ∈ delaysOf (NewRateLimiter 0 250)
      [RLOp.callWhen "a".toList 0, RLOp.callWhen "b".toList 10,
        RLOp.callForget "a".toList, RLOp.callWhen "a".toList 20], 0 ≤ δ) ∧
    (applyOps (NewRateLimiter 0 250)
        [RLOp.callWhen "a".toList 0, RLOp.callWhen "b".toList 10,
          RLOp.callForget "a".toList, RLOp.callWhen "a".toList 20]).currentDelay
      ≤ (applyOps (NewRateLimiter 0 250)
          ([RLOp.callWhen "a".toList 0, RLOp.callWhen "b".toList 10,
            RLOp.callForget "a".toList, RLOp.callWhen "a".toList 20]
            ++ [RLOp.callWhen "c".toList 30])).currentDelay ∧
    NumRequeues (applyOps (NewRateLimiter 0 250)
        [RLOp.callWhen "a".toList 0, RLOp.callWhen "b".toList 10,
          RLOp.callForget "a".toList, RLOp.callWhen "a".toList 20]) "a".toList
      = countSinceForget "a".toList
          [RLOp.callWhen "a".toList 0, RLOp.callWhen "b".toList 10,
            RLOp.callForget "a".toList, RLOp.callWhen "a".toList 20] ∧
    0 ≤ NumRequeues (applyOps (NewRateLimiter 0 250)
        [RLOp.callWhen "a".toList 0, RLOp.callWhen "b".toList 10,
          RLOp.callForget "a".toList, RLOp.callWhen "a".toList 20]) "a".toList := by
  have h := c10_rate_limiter_invariants 250 0
    [RLOp.callWhen "a".toList 0, RLOp.callWhen "b".toList 10,
      RLOp.callForget "a".toList, RLOp.callWhen "a".toList 20]
    [RLOp.callWhen "c".toList 30] "a".toList (by decide)
  exact ⟨by decide, h.1, h.2.1, h.2.2.1, h.2.2.2⟩

/-! ## ReconciliationController worker loop: pkg/controller/controller.go.
The rate-limited work queue is modelled as the limiter plus the pending
item list; `attempts` counts pops that reach the sync call and
`readmissions` counts rate-limited re-admissions after a sync error. -/

/-- The fixed retry ceiling `workerQueueRetry`. -/
def workerQueueRetry : Int := 3

/-- Worker-queue view of the controller state. -/
structure CtrlState where
  rl : RateLimiter
  queue : List (List Char)
  attempts : Nat
  readmissions : Nat
deriving DecidableEq

/-- `queue.AddRateLimited(item)` — the workqueue asks the rate limiter
`When(item)` (incrementing the item's failure counter) and admits the item
after the returned delay. -/
def AddRateLimited (st : CtrlState) (item : List Char) (now : Int) : CtrlState :=
  { st with rl := (When st.rl item now).1, queue := st.queue ++ [item] }

/-- `processNextItem` — pop the next domain name and run `sync` on it
(whether that sync call returns an error is passed in as `syncErr`).  On
an error: while `queue.NumRequeues(domainName)` is below the retry ceiling
the domain is re-admitted through `AddRateLimited`, otherwise the item is
dropped and `queue.Forget` clears its failure counter. -/
def processNextItem (st : CtrlState) (now : Int) (syncErr : Bool) : CtrlState :=
  match st.queue with
  | [] => st
  | domainName :: rest =>
    if syncErr then
      if NumRequeues st.rl domainName < workerQueueRetry then
        { rl := (When st.rl domainName now).1, queue := rest ++ [domainName],
          attempts := st.attempts + 1, readmissions := st.readmissions + 1 }
      else
        { rl := Forget st.rl domainName, queue := rest,
          attempts := st.attempts + 1, readmissions := st.readmissions }
    else
      { st with queue := rest, attempts := st.attempts + 1 }

/-! ## Claim C6: bounded retry -/

/-- C6 (counterexample): the claim's count is off by one.  A domain enters
the queue through a rate-limited admission, which already sets its failure
counter to 1; with the ceiling of 3, a repeatedly failing domain is
processed 3 times but re-admitted with rate limiting only twice — not
"retried exactly the ceiling number of times" — before being dropped with
its counter cleared. -/
theorem c6_counterexample :
    (processNextItem (processNextItem (processNextItem
        (AddRateLimited ⟨NewRateLimiter 0 250, [], 0, 0⟩ "home.domain".toList 0)
        0 true) 0 true) 0 true).readmissions = 2 ∧
    (processNextItem (processNextItem (processNextItem
        (AddRateLimited ⟨NewRateLimiter 0 250, [], 0, 0⟩ "home.domain".toList 0)
        0 true) 0 true) 0 true).attempts = 3 ∧
    (processNextItem (processNextItem (processNextItem
        (AddRateLimited ⟨NewRateLimiter 0 250, [], 0, 0⟩ "home.domain".toList 0)
        0 true) 0 true) 0 true).queue = [] ∧
    NumRequeues (processNextItem (processNextItem (processNextItem
        (AddRateLimited ⟨NewRateLimiter 0 250, [], 0, 0⟩ "home.domain".toList 0)
        0 true) 0 true) 0 true).rl "home.domain".toList = 0 ∧
    (2 : Nat) ≠ 3 := by
  refine ⟨?_, ?_, ?_, ?_, by decide⟩ <;> decide

/-- C6 (amended): on a sync error the worker re-admits the domain with rate
limiting while its failure counter is below the ceiling of 3 and at the
ceiling drops it and clears the counter; since the initial admission is
itself rate limited (counter already 1 at the first attempt), a domain
whose sync fails repeatedly is processed exactly 3 times in total —
re-admitted `ceiling - 1 = 2` times after the first attempt — and then
dropped from the queue with its failure counter cleared. -/
theorem c6_bounded_retry (d : List Char) (i t0 n1 n2 n3 : Int) :
    (∀ (st : CtrlState) (rest : List (List Char)) (now : Int),
      st.queue = d :: rest →
      (NumRequeues st.rl d < workerQueueRetry →
        processNextItem st now true
          = ⟨(When st.rl d now).1, rest ++ [d],
              st.attempts + 1, st.readmissions + 1⟩) ∧
      (¬NumRequeues st.rl d < workerQueueRetry →
        processNextItem st now true
          = ⟨Forget st.rl d, rest, st.attempts + 1, st.readmissions⟩ ∧
        NumRequeues (Forget st.rl d) d = 0)) ∧
    AddRateLimited ⟨NewRateLimiter t0 i, [], 0, 0⟩ d t0
      = ⟨(When (NewRateLimiter t0 i) d t0).1, [d], 0, 0⟩ ∧
    NumRequeues (When (NewRateLimiter t0 i) d t0).1 d = 1 ∧
    processNextItem ⟨(When (NewRateLimiter t0 i) d t0).1, [d], 0, 0⟩ n1 true
      = ⟨(When (When (NewRateLimiter t0 i) d t0).1 d n1).1, [d], 1, 1⟩ ∧
    NumRequeues (When (When (NewRateLimiter t0 i) d t0).1 d n1).1 d = 2 ∧
    processNextItem
        ⟨(When (When (NewRateLimiter t0 i) d t0).1 d n1).1, [d], 1, 1⟩ n2 true
      = ⟨(When (When (When (NewRateLimiter t0 i) d t0).1 d n1).1 d n2).1,
          [d], 2, 2⟩ ∧
    NumRequeues (When (When (When (NewRateLimiter t0 i) d t0).1 d n1).1
        d n2).1 d = 3 ∧
    processNextItem
        ⟨(When (When (When (NewRateLimiter t0 i) d t0).1 d n1).1 d n2).1,
          [d], 2, 2⟩ n3 true
      = ⟨Forget (When (When (When (NewRateLimiter t0 i) d t0).1 d n1).1
            d n2).1 d, [], 3, 2⟩ ∧
    NumRequeues (Forget (When (When (When (NewRateLimiter t0 i) d t0).1
        d n1).1 d n2).1 d) d = 0 := by
  have hstep : ∀ (st : CtrlState) (rest : List (List Char)) (now : Int),
      st.queue = d :: rest →
      (NumRequeues st.rl d < workerQueueRetry →
        processNextItem st now true
          = ⟨(When st.rl d now).1, rest ++ [d],
              st.attempts + 1, st.readmissions + 1⟩) ∧
      (¬NumRequeues st.rl d < workerQueueRetry →
        processNextItem st now true
          = ⟨Forget st.rl d, rest, st.attempts + 1, st.readmissions⟩ ∧
        NumRequeues (Forget st.rl d) d = 0) := by
    intro st rest now hq
    constructor
    · intro h
      unfold processNextItem
      rw [hq]
      simp only [if_true]
      rw [if_pos h]
    · intro h
      refine ⟨?_, ?_⟩
      · unfold processNextItem
        rw [hq]
        simp only [if_true]
        rw [if_neg h]
      · rw [NumRequeues_Forget, if_pos (by simp)]
  have hn1 : NumRequeues (When (NewRateLimiter t0 i) d t0).1 d = 1 := by
    rw [NumRequeues_When, if_pos (by simp)]
    simp [NumRequeues, NewRateLimiter, failuresGet]
  have hn2 : NumRequeues (When (When (NewRateLimiter t0 i) d t0).1 d n1).1 d
      = 2 := by
    rw [NumRequeues_When, if_pos (by simp), hn1]
    norm_num
  have hn3 : NumRequeues (When (When (When (NewRateLimiter t0 i) d t0).1
      d n1).1 d n2).1 d = 3 := by
    rw [NumRequeues_When, if_pos (by simp), hn2]
    norm_num
  have hn0 : NumRequeues (Forget (When (When (When (NewRateLimiter t0 i) d
      t0).1 d n1).1 d n2).1 d) d = 0 := by
    rw [NumRequeues_Forget, if_pos (by simp)]
  refine ⟨hstep, by simp [AddRateLimited], hn1, ?_, hn2, ?_, hn3, ?_, hn0⟩
  · refine (hstep ⟨(When (NewRateLimiter t0 i) d t0).1, [d], 0, 0⟩ [] n1 rfl).1 ?_
    show NumRequeues (When (NewRateLimiter t0 i) d t0).1 d < workerQueueRetry
    rw [hn1]
    unfold workerQueueRetry
    norm_num
  · refine (hstep ⟨(When (When (NewRateLimiter t0 i) d t0).1 d n1).1, [d], 1, 1⟩
      [] n2 rfl).1 ?_
    show NumRequeues (When (When (NewRateLimiter t0 i) d t0).1 d n1).1 d
      < workerQueueRetry
    rw [hn2]
    unfold workerQueueRetry
    norm_num
  · refine ((hstep ⟨(When (When (When (NewRateLimiter t0 i) d t0).1 d n1).1
      d n2).1, [d], 2, 2⟩ [] n3 rfl).2 ?_).1
    show ¬NumRequeues (When (When (When (NewRateLimiter t0 i) d t0).1 d n1).1
      d n2).1 d < workerQueueRetry
    rw [hn3]
    unfold workerQueueRetry
    norm_num

/-- C6 (witness): the amended bounded-retry run at concrete times and a
concrete domain. -/
theorem c6_witness :
    (NumRequeues (⟨NewRateLimiter 0 250, ["home.domain".toList], 0, 0⟩ :
        CtrlState).rl "home.domain".toList < workerQueueRetry) ∧
    processNextItem (⟨NewRateLimiter 0 250, ["home.domain".toList], 0, 0⟩ :
        CtrlState) 0 true
      = ⟨(When (NewRateLimiter 0 250) "home.domain".toList 0).1,
          [] ++ ["home.domain".toList], 0 + 1, 0 + 1⟩ ∧
    processNextItem
        ⟨(When (When (When (NewRateLimiter 0 250) "home.domain".toList 0).1
            "home.domain".toList 0).1 "home.domain".toList 0).1,
          ["home.domain".toList], 2, 2⟩ 0 true
      = ⟨Forget (When (When (When (NewRateLimiter 0 250)
            "home.domain".toList 0).1 "home.domain".toList 0).1
            "home.domain".toList 0).1 "home.domain".toList, [], 3, 2⟩ := by
  refine ⟨by decide, ?_, ?_⟩
  · exact ((c6_bounded_retry "home.domain".toList 250 0 0 0 0).1
      ⟨NewRateLimiter 0 250, ["home.domain".toList], 0, 0⟩ [] 0 rfl).1
      (by decide)
  · exact (((c6_bounded_retry "home.domain".toList 250 0 0 0 0).1
      ⟨(When (When (When (NewRateLimiter 0 250) "home.domain".toList 0).1
          "home.domain".toList 0).1 "home.domain".toList 0).1,
        ["home.domain".toList], 2, 2⟩ [] 0 rfl).2
      (by decide)).1

/-! ## Controller.sync and its validate step (pkg/controller/controller.go,
pkg/cron/cron.go).  The ZMS fetch is a parameter: its four outcomes mirror
`zmsGetSignedDomains` — a result list, the empty list (`exist = false`), a
structured `rdl.ResourceError` with a code, or an error that fails the
cast to `rdl.ResourceError`. -/

/-- `IsTrustDomain` — the trust-domain index lookup: some stored resource
has a role whose non-empty trust target equals the domain
(`TrustDomainIndexFunc` indexes exactly those). -/
def IsTrustDomain (store : List AthenzDomain) (domainName : List Char) : Bool :=
  store.any (fun cr => cr.spec.domain.roles.any
    (fun role => role.trust != [] && role.trust == domainName))

/-- `ValidateDomain` — a domain is valid when its converted namespace is an
active namespace, or it is the admin domain, or it is a live trust
target. -/
def ValidateDomain (u : Util) (nsStore : List (List Char))
    (crStore : List AthenzDomain) (domain : List Char) : Bool :=
  let nsKey := u.DomainToNamespace domain
  nsStore.any (fun ns => ns == nsKey) || u.IsAdminDomain domain ||
    IsTrustDomain crStore domain

/-- Outcome of the `zmsGetSignedDomains` fetch, passed into `sync`. -/
inductive FetchOutcome where
  | ok (domains : List SignedDomain)
  | isMissing
  | resourceErr (code : Int) (msg : List Char)
  | otherErr
deriving DecidableEq

/-- Go error result of one `sync` call.  `nilErrCrash` marks the run that
dereferences a nil error value (a Go runtime panic): in the non-404 error
branch the short variable declaration `obj, exists, err := GetCRByName(...)`
shadows the fetch error, so the subsequent `err.Error()` runs on a nil
error whenever the mirrored resource exists. -/
inductive SyncOut where
  | ok
  | errMsg (msg : List Char)
  | nilErrCrash
deriving DecidableEq

/-- Result of one `sync` call: the store after the call, the trust domains
added to the work queue, and the returned error. -/
structure SyncResult where
  store : List AthenzDomain
  enqueued : List (List Char)
  out : SyncOut
deriving DecidableEq

/-- The create/update plus trust-cascade loop of `sync` over the fetched
`result.Domains` entries whose name equals the synced domain: create or
update the CR, then enqueue every role's trust target that is non-empty,
differs from the domain, and is not yet a stored CR — provided the current
domain corresponds to a live namespace or is the admin domain. -/
def syncApplyDomains (u : Util) (nsStore : List (List Char))
    (domain : List Char) :
    List SignedDomain → List AthenzDomain → List AthenzDomain × List (List Char)
  | [], store => (store, [])
  | dd :: rest, store =>
    if dd.domain.name == domain then
      let store' := (CreateUpdateAthenzDomain store domain dd).1
      let enq := dd.domain.roles.filterMap (fun role =>
        if role.trust != [] && role.trust != domain &&
            (GetCRByName store' role.trust).isNone &&
            (nsStore.any (fun ns => ns == u.DomainToNamespace domain) ||
              u.IsAdminDomain domain)
        then some role.trust else none)
      let r := syncApplyDomains u nsStore domain rest store'
      (r.1, enq ++ r.2)
    else syncApplyDomains u nsStore domain rest store

/-- `Controller.sync` — validate the domain (an invalid domain is removed
and the call succeeds without fetching); then act on the fetch outcome: a
non-`ResourceError` yields the conversion error; a 404 removes the CR; any
other `ResourceError` enters the branch whose `obj, exists, err :=
c.cr.GetCRByName(domain)` shadows the fetch error, so with an existing CR
it evaluates `err.Error()` on nil (crash) and without one it returns the
shadowed nil error; an empty result removes the CR; a result list is
applied through `CreateUpdateAthenzDomain` with the trust cascade. -/
def sync (u : Util) (nsStore : List (List Char)) (store : List AthenzDomain)
    (domain : List Char) (fetch : FetchOutcome) : SyncResult :=
  if ValidateDomain u nsStore store domain = false then
    ⟨RemoveAthenzDomain store domain, [], .ok⟩
  else
    match fetch with
    | .otherErr =>
      ⟨store, [], .errMsg "Error occurred when converting error types".toList⟩
    | .resourceErr code _ =>
      if code = 404 then ⟨RemoveAthenzDomain store domain, [], .ok⟩
      else
        match GetCRByName store domain with
        | some _ => ⟨store, [], .nilErrCrash⟩
        | none => ⟨store, [], .ok⟩
    | .isMissing => ⟨RemoveAthenzDomain store domain, [], .ok⟩
    | .ok domains =>
      let r := syncApplyDomains u nsStore domain domains store
      ⟨r.1, r.2, .ok⟩

/-! ## Claim C7: error-status stamping (a code bug) -/

/-- C7: the claim matches the spec's intent but not the code.  In the
non-404 fetch-error branch, `obj, exists, err := c.cr.GetCRByName(domain)`
shadows the fetch error: with domain `home.domain` (the admin domain here,
so validation passes without touching the namespace store), a mirrored CR
present, and a fetch failing with code 500, the code reaches
`obj.Status.Message = err.Error()` with `err = nil` — a crash, with the
resource left unchanged rather than stamped; and when no mirrored CR
exists the function returns the shadowed nil error, so no error is
propagated and no retry is triggered. -/
theorem c7_error_stamping_shadowed_err :
    sync (Util.mk "home.domain".toList []) []
        [⟨"home.domain".toList, ⟨"old".toList⟩,
          ⟨⟨"home.domain".toList, 0, [], ⟨⟨[]⟩, [], []⟩⟩, [], []⟩⟩]
        "home.domain".toList (.resourceErr 500 "boom".toList)
      = ⟨[⟨"home.domain".toList, ⟨"old".toList⟩,
            ⟨⟨"home.domain".toList, 0, [], ⟨⟨[]⟩, [], []⟩⟩, [], []⟩⟩],
          [], .nilErrCrash⟩ ∧
    sync (Util.mk "home.domain".toList []) [] []
        "home.domain".toList (.resourceErr 500 "boom".toList)
      = ⟨[], [], .ok⟩ ∧
    SyncOut.nilErrCrash ≠ SyncOut.ok := by
  refine ⟨?_, ?_, by decide⟩ <;> decide

/-! ## Claim C8: admission validity -/

theorem GetCRByName_remove_self (store : List AthenzDomain)
    (domain : List Char) :
    GetCRByName (RemoveAthenzDomain store domain) domain = none := by
  unfold RemoveAthenzDomain
  rcases hfind : GetCRByName store domain with _ | obj
  · exact hfind
  · unfold GetCRByName
    rw [List.find?_eq_none]
    intro cr hcr
    have := (List.mem_filter.mp hcr).2
    simpa using this

/-- C8: a domain whose converted namespace is not an active namespace,
which is not the admin domain, not a configured system-namespace domain,
and not a live trust target, fails the validate step: `sync` removes any
existing mirrored resource and terminates successfully without consulting
the fetch outcome at all (the result is the same for every fetch outcome,
so such a domain is never created), and afterwards no resource for the
domain remains in the store.  (The validate step needs only the namespace,
admin and trust-target conditions; the system-domain hypothesis is part of
the claim and is not contradicted.) -/
theorem c8_admission_validity (u : Util) (nsStore : List (List Char))
    (store : List AthenzDomain) (domain : List Char) (fetch : FetchOutcome)
    (hns : nsStore.any (fun ns => ns == u.DomainToNamespace domain) = false)
    (hadm : u.IsAdminDomain domain = false)
    (hsys : u.IsSystemDomain domain = false)
    (htrust : IsTrustDomain store domain = false) :
    sync u nsStore store domain fetch
      = ⟨RemoveAthenzDomain store domain, [], .ok⟩ ∧
    GetCRByName (sync u nsStore store domain fetch).store domain = none := by
  have hvalid : ValidateDomain u nsStore store domain = false := by
    unfold ValidateDomain
    dsimp only
    rw [hns, hadm, htrust]
    rfl
  have h1 : sync u nsStore store domain fetch
      = ⟨RemoveAthenzDomain store domain, [], .ok⟩ := by
    unfold sync
    rw [if_pos hvalid]
  exact ⟨h1, by rw [h1]; exact GetCRByName_remove_self store domain⟩

/-- C8 (witness): a stale domain that fails all four admission conditions
is deleted by the next sync attempt whatever the fetch would have
returned. -/
theorem c8_witness :
    (([] : List (List Char)).any (fun ns =>
      ns == (Util.mk "admin.domain".toList ["kube-system".toList]).DomainToNamespace
        "stale.domain".toList) = false) ∧
    ((Util.mk "admin.domain".toList ["kube-system".toList]).IsAdminDomain
      "stale.domain".toList = false) ∧
    ((Util.mk "admin.domain".toList ["kube-system".toList]).IsSystemDomain
      "stale.domain".toList = false) ∧
    (IsTrustDomain
      [⟨"stale.domain".toList, ⟨[]⟩,
        ⟨⟨"stale.domain".toList, 0, [], ⟨⟨[]⟩, [], []⟩⟩, [], []⟩⟩]
      "stale.domain".toList = false) ∧
    sync (Util.mk "admin.domain".toList ["kube-system".toList]) []
        [⟨"stale.domain".toList, ⟨[]⟩,
          ⟨⟨"stale.domain".toList, 0, [], ⟨⟨[]⟩, [], []⟩⟩, [], []⟩⟩]
        "stale.domain".toList .isMissing
      = ⟨RemoveAthenzDomain
          [⟨"stale.domain".toList, ⟨[]⟩,
            ⟨⟨"stale.domain".toList, 0, [], ⟨⟨[]⟩, [], []⟩⟩, [], []⟩⟩]
          "stale.domain".toList, [], .ok⟩ ∧
    GetCRByName (sync (Util.mk "admin.domain".toList ["kube-system".toList]) []
        [⟨"stale.domain".toList, ⟨[]⟩,
          ⟨⟨"stale.domain".toList, 0, [], ⟨⟨[]⟩, [], []⟩⟩, [], []⟩⟩]
        "stale.domain".toList .isMissing).store "stale.domain".toList
      = none := by
  have h := c8_admission_validity
    (Util.mk "admin.domain".toList ["kube-system".toList]) []
    [⟨"stale.domain".toList, ⟨[]⟩,
      ⟨⟨"stale.domain".toList, 0, [], ⟨⟨[]⟩, [], []⟩⟩, [], []⟩⟩]
    "stale.domain".toList .isMissing (by decide) (by decide) (by decide)
    (by decide)
  exact ⟨by decide, by decide, by decide, by decide, h.1, h.2⟩

/-! ## LatestCursor: `GetLatestTimestamp` in pkg/cr/cr.go.  Timestamps are
modelled at second granularity as Int seconds since the Unix epoch;
`time.Time.Format(time.RFC3339)` in UTC is modelled by `rfc3339` over the
standard civil-from-days Gregorian algorithm (floor division throughout,
which Int division and remainder provide for positive divisors). -/

/-- Gregorian date `(year, month, day)` of a day count relative to
1970-01-01. -/
def civilFromDays (z0 : Int) : Int × Int × Int :=
  let z := z0 + 719468
  let era := z / 146097
  let doe := z % 146097
  let yoe := (doe - doe / 1460 + doe / 36524 - doe / 146096) / 365
  let y := yoe + era * 400
  let doy := doe - (365 * yoe + yoe / 4 - yoe / 100)
  let mp := (5 * doy + 2) / 153
  let d := doy - (153 * mp + 2) / 5 + 1
  let m := mp + (if mp < 10 then 3 else -9)
  (y + (if m ≤ 2 then 1 else 0), m, d)

/-- Decimal digit character.  Field values outside 0..9 cannot arise for
the in-range components the formatter produces. -/
def digitc (i : Int) : Char :=
  if i = 0 then '0' else if i = 1 then '1' else if i = 2 then '2'
  else if i = 3 then '3' else if i = 4 then '4' else if i = 5 then '5'
  else if i = 6 then '6' else if i = 7 then '7' else if i = 8 then '8'
  else if i = 9 then '9' else '?'

/-- Two-digit zero-padded field. -/
def pad2 (n : Int) : List Char := [digitc (n / 10), digitc (n % 10)]

/-- Four-digit zero-padded field. -/
def pad4 (n : Int) : List Char :=
  [digitc (n / 1000), digitc ((n / 100) % 10),
    digitc ((n / 10) % 10), digitc (n % 10)]

/-- RFC3339 in UTC at second granularity: `yyyy-mm-ddThh:mm:ssZ`. -/
def rfc3339 (t : Int) : List Char :=
  let z := t / 86400
  let sod := t % 86400
  let c := civilFromDays z
  pad4 c.1 ++ '-' :: pad2 c.2.1 ++ '-' :: pad2 c.2.2 ++
    'T' :: pad2 (sod / 3600) ++ ':' :: pad2 ((sod % 3600) / 60) ++
    ':' :: pad2 (sod % 60) ++ ['Z']

/-- `GetLatestTimestamp` — fold the stored CRs' `Spec.Domain.Modified`
through an is-after comparison seeded with the Unix epoch, format the
result as RFC3339, and return the empty string for an empty store or when
the formatted result is the epoch string itself (the interface-cast
failure branch cannot occur in the typed model). -/
def GetLatestTimestamp (store : List AthenzDomain) : List Char :=
  if store.isEmpty then []
  else
    let latest := store.foldl (fun latest cr =>
      if cr.spec.domain.modified > latest then cr.spec.domain.modified
      else latest) 0
    let timestr := rfc3339 latest
    if timestr = "1970-01-01T00:00:00Z".toList then [] else timestr

/-! ### Digit and calendar lemmas -/

theorem digitc_eq_zero {v : Int} (h : digitc v = '0') : v = 0 := by
  unfold digitc at h
  split_ifs at h <;> first | assumption | exact absurd h (by decide)

theorem digitc_eq_one {v : Int} (h : digitc v = '1') : v = 1 := by
  unfold digitc at h
  split_ifs at h <;> first | assumption | exact absurd h (by decide)

theorem digitc_eq_seven {v : Int} (h : digitc v = '7') : v = 7 := by
  unfold digitc at h
  split_ifs at h <;> first | assumption | exact absurd h (by decide)

theorem digitc_eq_nine {v : Int} (h : digitc v = '9') : v = 9 := by
  unfold digitc at h
  split_ifs at h <;> first | assumption | exact absurd h (by decide)

theorem civilFromDays_eq_epoch (z : Int)
    (hz : civilFromDays z = (1970, 1, 1)) : z = 0 := by
  unfold civilFromDays at hz
  dsimp only at hz
  rw [Prod.mk.injEq, Prod.mk.injEq] at hz
  obtain ⟨hy, hm, hd⟩ := hz
  split_ifs at hy hm <;> omega

/-- A strictly positive timestamp never formats to the epoch string. -/
theorem rfc3339_ne_epoch (t : Int) (ht : 0 < t) :
    rfc3339 t ≠ "1970-01-01T00:00:00Z".toList := by
  intro h
  unfold rfc3339 pad4 pad2 at h
  dsimp only at h
  rw [show "1970-01-01T00:00:00Z".toList
    = ['1', '9', '7', '0', '-', '0', '1', '-', '0', '1', 'T', '0', '0', ':',
        '0', '0', ':', '0', '0', 'Z'] from rfl] at h
  simp only [List.cons_append, List.nil_append, List.cons.injEq, and_true] at h
  obtain ⟨hy3, hy2, hy1, hy0, -, hm1, hm0, -, hd1, hd0, -, hh1, hh0, -,
    hmi1, hmi0, -, hs1, hs0⟩ := h
  have es1 : ((t % 86400) / 3600) / 10 = 0 := digitc_eq_zero hh1
  have es2 : ((t % 86400) / 3600) % 10 = 0 := digitc_eq_zero hh0
  have es3 : (((t % 86400) % 3600) / 60) / 10 = 0 := digitc_eq_zero hmi1
  have es4 : (((t % 86400) % 3600) / 60) % 10 = 0 := digitc_eq_zero hmi0
  have es5 : ((t % 86400) % 60) / 10 = 0 := digitc_eq_zero hs1
  have es6 : ((t % 86400) % 60) % 10 = 0 := digitc_eq_zero hs0
  have hsod : t % 86400 = 0 := by omega
  have hz1 : 1 ≤ t / 86400 := by omega
  have ey3 : (civilFromDays (t / 86400)).1 / 1000 = 1 := digitc_eq_one hy3
  have ey2 : ((civilFromDays (t / 86400)).1 / 100) % 10 = 9 :=
    digitc_eq_nine hy2
  have ey1 : ((civilFromDays (t / 86400)).1 / 10) % 10 = 7 :=
    digitc_eq_seven hy1
  have ey0 : (civilFromDays (t / 86400)).1 % 10 = 0 := digitc_eq_zero hy0
  have em1 : (civilFromDays (t / 86400)).2.1 / 10 = 0 := digitc_eq_zero hm1
  have em0 : (civilFromDays (t / 86400)).2.1 % 10 = 1 := digitc_eq_one hm0
  have ed1 : (civilFromDays (t / 86400)).2.2 / 10 = 0 := digitc_eq_zero hd1
  have ed0 : (civilFromDays (t / 86400)).2.2 % 10 = 1 := digitc_eq_one hd0
  have hy1970 : (civilFromDays (t / 86400)).1 = 1970 := by omega
  have hmth : (civilFromDays (t / 86400)).2.1 = 1 := by omega
  have hday : (civilFromDays (t / 86400)).2.2 = 1 := by omega
  have heq : civilFromDays (t / 86400) = (1970, 1, 1) := by
    rw [Prod.ext_iff, Prod.ext_iff]
    exact ⟨hy1970, hmth, hday⟩
  have := civilFromDays_eq_epoch (t / 86400) heq
  omega

/-! ### Fold lemmas for the latest-timestamp scan -/

theorem foldLatest_le (M : Int) :
    ∀ (l : List AthenzDomain) (a : Int),
      (∀ cr ∈ l, cr.spec.domain.modified ≤ M) → a ≤ M →
      l.foldl (fun latest cr =>
        if cr.spec.domain.modified > latest then cr.spec.domain.modified
        else latest) a ≤ M := by
  intro l
  induction l with
  | nil => intro a _ ha; simpa using ha
  | cons c rest ihl =>
    intro a hub ha
    rw [List.foldl_cons]
    refine ihl _ (fun cr hcr => hub cr (by simp [hcr])) ?_
    have := hub c (by simp)
    split_ifs <;> omega

theorem foldLatest_ge_acc :
    ∀ (l : List AthenzDomain) (a : Int),
      a ≤ l.foldl (fun latest cr =>
        if cr.spec.domain.modified > latest then cr.spec.domain.modified
        else latest) a := by
  intro l
  induction l with
  | nil => intro a; simp
  | cons c rest ihl =>
    intro a
    rw [List.foldl_cons]
    have := ihl (if c.spec.domain.modified > a then c.spec.domain.modified else a)
    split_ifs at this ⊢ <;> omega

theorem foldLatest_ge_mem (M : Int) :
    ∀ (l : List AthenzDomain) (a : Int),
      (∃ cr ∈ l, cr.spec.domain.modified = M) →
      M ≤ l.foldl (fun latest cr =>
        if cr.spec.domain.modified > latest then cr.spec.domain.modified
        else latest) a := by
  intro l
  induction l with
  | nil => intro a h; exact absurd h (by simp)
  | cons c rest ihl =>
    intro a h
    rw [List.foldl_cons]
    rcases h with ⟨cr, hcr, hM⟩
    rcases List.mem_cons.mp hcr with h1 | h1
    · subst h1
      have hge := foldLatest_ge_acc rest
        (if cr.spec.domain.modified > a then cr.spec.domain.modified else a)
      rw [hM] at hge ⊢
      split_ifs at hge ⊢ <;> omega
    · exact ihl _ ⟨cr, h1, hM⟩

/-! ## Claim C9: latest cursor -/

/-- C9 (counterexample): `GetLatestTimestamp` seeds its maximum with the
Unix epoch and returns the empty string whenever the formatted result is
the epoch string, so for a store whose maximum modification timestamp IS
the epoch it returns `""` instead of the RFC3339 rendering of that
maximum. -/
theorem c9_counterexample :
    (∀ cr ∈ [(⟨"home.domain".toList, ⟨[]⟩,
        ⟨⟨"home.domain".toList, 0, [], ⟨⟨[]⟩, [], []⟩⟩, [], []⟩⟩ :
        AthenzDomain)], cr.spec.domain.modified = 0) ∧
    GetLatestTimestamp
        [⟨"home.domain".toList, ⟨[]⟩,
          ⟨⟨"home.domain".toList, 0, [], ⟨⟨[]⟩, [], []⟩⟩, [], []⟩⟩] = [] ∧
    rfc3339 0 = "1970-01-01T00:00:00Z".toList ∧
    ([] : List Char) ≠ "1970-01-01T00:00:00Z".toList := by
  refine ⟨by decide, ?_, by decide, by decide⟩
  decide

/-- C9 (amended): `GetLatestTimestamp` returns the empty string on an
empty store, and on a store whose maximum modification timestamp `M` is
after the Unix epoch it returns `M` formatted as RFC3339.  (For a
non-empty store whose maximum is at or before the epoch — not produced by
the external service — the code returns the empty string, the case the
counterexample pins.) -/
theorem c9_latest_cursor (store : List AthenzDomain) (M : Int)
    (hub : ∀ cr ∈ store, cr.spec.domain.modified ≤ M)
    (hmem : ∃ cr ∈ store, cr.spec.domain.modified = M)
    (hpos : 0 < M) :
    GetLatestTimestamp store = rfc3339 M ∧
    GetLatestTimestamp [] = [] := by
  refine ⟨?_, rfl⟩
  have hne : store.isEmpty = false := by
    rcases hmem with ⟨cr, hcr, -⟩
    rcases store with _ | ⟨c, rest⟩
    · exact absurd hcr (by simp)
    · rfl
  have hfold : store.foldl (fun latest cr =>
      if cr.spec.domain.modified > latest then cr.spec.domain.modified
      else latest) 0 = M :=
    le_antisymm (foldLatest_le M store 0 hub (le_of_lt hpos))
      (foldLatest_ge_mem M store 0 hmem)
  unfold GetLatestTimestamp
  rw [hne]
  dsimp only
  rw [hfold, if_neg (rfc3339_ne_epoch M hpos)]
  rfl

/-- C9 (witness): a store holding the repository test fixture's
modification instant 2019-06-21T19:28:09Z (1561145289 seconds). -/
theorem c9_witness :
    (∀ cr ∈ [(⟨"home.domain".toList, ⟨[]⟩,
        ⟨⟨"home.domain".toList, 1561145289, [], ⟨⟨[]⟩, [], []⟩⟩, [], []⟩⟩ :
        AthenzDomain)], cr.spec.domain.modified ≤ 1561145289) ∧
    (∃ cr ∈ [(⟨"home.domain".toList, ⟨[]⟩,
        ⟨⟨"home.domain".toList, 1561145289, [], ⟨⟨[]⟩, [], []⟩⟩, [], []⟩⟩ :
        AthenzDomain)], cr.spec.domain.modified = 1561145289) ∧
    (0:Int) < 1561145289 ∧
    GetLatestTimestamp
        [⟨"home.domain".toList, ⟨[]⟩,
          ⟨⟨"home.domain".toList, 1561145289, [], ⟨⟨[]⟩, [], []⟩⟩, [], []⟩⟩]
      = rfc3339 1561145289 ∧
    rfc3339 1561145289 = "2019-06-21T19:28:09Z".toList := by
  refine ⟨by decide, by decide, by decide, ?_, by decide⟩
  exact (c9_latest_cursor
    [⟨"home.domain".toList, ⟨[]⟩,
      ⟨⟨"home.domain".toList, 1561145289, [], ⟨⟨[]⟩, [], []⟩⟩, [], []⟩⟩]
    1561145289 (by decide) (by decide) (by decide)).1
